import Mathlib

/-!
# `my_code::MemoryPool<T, BlockSize>` (src/memory_pool.h)

A shallow embedding of the fixed-size-object pool allocator and a verification of its
specification against the code.

Addresses are natural numbers, `nullptr` is `0`.  Memory is an array of bytes; a pointer
is stored in `ptrSize` consecutive bytes (least significant byte first), so that two
links stored at overlapping addresses really do overwrite each other.  The system
allocator (`operator new` / `operator delete`) is the environment: the outcome of its
`k`-th call is given by a function `sys : Nat → Option Nat` (`none` is `std::bad_alloc`),
and the heap records how many calls were made and which blocks were released.

A call of a member function ends in an `Outcome`.  `alloc` has a path on which control
reaches the end of the function body without a `return` statement, which is undefined
behaviour in C++.  The embedding marks that path with `Outcome.noReturn` and pairs it
with the pool and heap in which control reaches the closing brace (no statement has
been executed before it).  That pair is not a state after the call: the source
determines neither the value the caller receives nor what the program does next.
Accordingly a run of client calls (`exec`) ends as `RunResult.undefined` at such a
call, and the properties proved of runs are properties of runs with defined behaviour.
-/

namespace my_code

/-! ## Platform and template parameters -/

/-- The compile-time constants that `MemoryPool<T, BlockSize>` depends on. -/
structure Config where
  /-- The template argument `BlockSize`. -/
  BlockSize : Nat
  /-- The value of `sizeof(Slot)`. -/
  slotSize : Nat
  /-- The value of `alignof(Slot)`. -/
  slotAlign : Nat
  /-- The value of `sizeof(Slot*)`, which is also `sizeof(char*)`. -/
  ptrSize : Nat
  /-- The width in bits of `size_t` and `uintptr_t`. -/
  wordBits : Nat
deriving DecidableEq, Repr

/-- What the language guarantees about the union `Slot` (it has a pointer member, its
size is a multiple of its alignment) together with the `static_assert` of the class. -/
structure Config.WF (cfg : Config) : Prop where
  ptr_pos : 0 < cfg.ptrSize
  ptr_le : cfg.ptrSize ≤ cfg.slotSize
  align_pos : 0 < cfg.slotAlign
  align_dvd : cfg.slotAlign ∣ cfg.slotSize
  static_assert : 2 * cfg.slotSize ≤ cfg.BlockSize

/-! ## Byte memory -/

/-- Memory: the byte stored at every address. -/
abbrev Memory := Nat → Nat

/-- Store the value `v` as an `n`-byte little-endian word at address `p`. -/
def storePtr (m : Memory) (p : Nat) : Nat → Nat → Memory
  | 0, _ => m
  | n + 1, v => storePtr (Function.update m p (v % 256)) (p + 1) n (v / 256)

/-- Load the `n`-byte little-endian word at address `p`. -/
def loadPtr (m : Memory) (p : Nat) : Nat → Nat
  | 0 => 0
  | n + 1 => m p % 256 + 256 * loadPtr m (p + 1) n

/-! ## Pool and heap state -/

/-- The four data members of `MemoryPool`. -/
structure MemoryPool where
  m_current_block : Nat
  m_current_slot : Nat
  m_last_slot : Nat
  m_free_slots : Nat
deriving DecidableEq, Repr

/-- The state of a default-constructed pool: all four members are `nullptr`. -/
def MemoryPool.empty : MemoryPool :=
  { m_current_block := 0, m_current_slot := 0, m_last_slot := 0, m_free_slots := 0 }

/-- The part of the machine outside the pool object: memory and the system allocator. -/
structure Heap where
  /-- The bytes of memory. -/
  mem : Memory
  /-- Number of calls of `operator new(BlockSize)` made so far. -/
  news : Nat
  /-- Arguments of the calls of `operator delete` made so far, oldest first. -/
  deleted : List Nat

/-- How a call of a value-returning member function ends. -/
inductive Outcome where
  /-- A `return` statement was executed with this address. -/
  | ret (addr : Nat)
  /-- Control reached the closing brace of the function without a `return`:
  undefined behaviour in C++.  The caller receives no defined value and the program has
  no defined behaviour from this point on. -/
  | noReturn
  /-- The call of `operator new` threw `std::bad_alloc`, which propagates. -/
  | badAlloc
deriving DecidableEq, Repr

/-! ## The member functions -/

/-- The member `pad_pointer(ptr, align)`: `(align - result) % align` in `uintptr_t`/`size_t`
arithmetic of width `w`; the subtraction wraps around modulo `2 ^ w`. -/
def pad_pointer (w : Nat) (ptr align : Nat) : Nat :=
  ((align % 2 ^ w + 2 ^ w - ptr % 2 ^ w) % 2 ^ w) % align

/-- The member `allocate_block()`: `none` when `operator new` throws (nothing has been
written at that point), otherwise the pool and memory after linking in the new block.
The source assigns `reinterpret_cast<Slot>(body + body_padding)` to the cursor; the
conversion to `Slot*` that the member's type requires is what is embedded. -/
def allocate_block (cfg : Config) (sys : Nat → Option Nat) (self : MemoryPool) (h : Heap) :
    Option (MemoryPool × Heap) :=
  match sys h.news with
  | none => none
  | some new_block =>
    let mem := storePtr h.mem new_block cfg.ptrSize self.m_current_block
    let body := new_block + cfg.ptrSize
    let body_padding := pad_pointer cfg.wordBits body cfg.slotAlign
    some ({ m_current_block := new_block
            m_current_slot := body + body_padding
            m_last_slot := new_block + cfg.BlockSize - cfg.slotSize + 1
            m_free_slots := self.m_free_slots },
          { h with mem := mem, news := h.news + 1 })

/-- The member `alloc()`: pop the free list if it is not empty; otherwise, if the cursor
has reached the bound, acquire a block and return the cursor, advancing it by one slot;
otherwise the function body ends without a `return`.  On that last path the result is
`Outcome.noReturn` with the pool and heap in which the closing brace is reached; the
call has undefined behaviour, so these are not a post-state of the call.
The parameters `n` and `hint` are not used by the source. -/
def alloc (cfg : Config) (sys : Nat → Option Nat) (self : MemoryPool) (h : Heap) :
    Outcome × MemoryPool × Heap :=
  if self.m_free_slots ≠ 0 then
    let result := self.m_free_slots
    (Outcome.ret result,
      { self with m_free_slots := loadPtr h.mem self.m_free_slots cfg.ptrSize }, h)
  else if self.m_current_slot ≥ self.m_last_slot then
    match allocate_block cfg sys self h with
    | none => (Outcome.badAlloc, self, { h with news := h.news + 1 })
    | some (self1, h1) =>
      (Outcome.ret self1.m_current_slot,
        { self1 with m_current_slot := self1.m_current_slot + cfg.slotSize }, h1)
  else
    (Outcome.noReturn, self, h)

/-- The member `dealloc(ptr)`: push the slot at `ptr` on the free list unless `ptr` is null. -/
def dealloc (cfg : Config) (self : MemoryPool) (h : Heap) (ptr : Nat) : MemoryPool × Heap :=
  if ptr ≠ 0 then
    ({ self with m_free_slots := ptr },
      { h with mem := storePtr h.mem ptr cfg.ptrSize self.m_free_slots })
  else
    (self, h)

/-- The member `new_element(args...)`: `alloc()` followed by placement-new of a `T` at the result.
`construct` is the effect of `T`'s constructor on memory.  When `alloc` does not return
an address there is no defined address to construct at. -/
def new_element (cfg : Config) (sys : Nat → Option Nat) (construct : Memory → Nat → Memory)
    (self : MemoryPool) (h : Heap) : Outcome × MemoryPool × Heap :=
  match alloc cfg sys self h with
  | (Outcome.ret result, self1, h1) =>
    (Outcome.ret result, self1, { h1 with mem := construct h1.mem result })
  | r => r

/-- The member `delete_element(ptr)`: run `T`'s destructor and `dealloc` unless `ptr` is null.
`destroy` is the effect of `T`'s destructor on memory. -/
def delete_element (cfg : Config) (destroy : Memory → Nat → Memory)
    (self : MemoryPool) (h : Heap) (ptr : Nat) : MemoryPool × Heap :=
  if ptr ≠ 0 then
    dealloc cfg self { h with mem := destroy h.mem ptr } ptr
  else
    (self, h)

/-- The member `max_size()`: `size_t max_blocks = -1 / BlockSize` and then
`(BlockSize - sizeof(char*)) / sizeof(Slot) * max_blocks`, all in `size_t`. -/
def max_size (cfg : Config) : Nat :=
  let max_blocks := (2 ^ cfg.wordBits - 1) / (cfg.BlockSize % 2 ^ cfg.wordBits)
  (((cfg.BlockSize % 2 ^ cfg.wordBits + 2 ^ cfg.wordBits - cfg.ptrSize % 2 ^ cfg.wordBits)
      % 2 ^ cfg.wordBits) / cfg.slotSize * max_blocks) % 2 ^ cfg.wordBits

/-- The loop of `~MemoryPool()`: read `cur->next`, release `cur`, continue with the
link.  `fuel` bounds the number of iterations; `none` means the bound was too small. -/
def destroyLoop (cfg : Config) (mem : Memory) : Nat → Nat → List Nat → Option (List Nat)
  | 0, cur, deleted => if cur = 0 then some deleted else none
  | fuel + 1, cur, deleted =>
    if cur = 0 then some deleted
    else destroyLoop cfg mem fuel (loadPtr mem cur cfg.ptrSize) (deleted ++ [cur])

/-- The destructor `~MemoryPool()`: walk the block chain from `m_current_block`,
releasing each block. -/
def destructor (cfg : Config) (fuel : Nat) (self : MemoryPool) (h : Heap) : Option Heap :=
  match destroyLoop cfg h.mem fuel self.m_current_block h.deleted with
  | none => none
  | some d => some { h with deleted := d }

/-- The copy constructor `MemoryPool(const MemoryPool&)` and the converting copy
constructor: both delegate to the default constructor and do not look at the argument. -/
def copyConstruct (_memory_pool : MemoryPool) : MemoryPool := MemoryPool.empty

/-- The move constructor `MemoryPool(MemoryPool&& rhs)`: the new object and `rhs` afterwards. -/
def moveConstruct (rhs : MemoryPool) : MemoryPool × MemoryPool :=
  ({ m_current_block := rhs.m_current_block
     m_current_slot := rhs.m_current_slot
     m_last_slot := rhs.m_last_slot
     m_free_slots := rhs.m_free_slots },
   { rhs with m_current_block := 0 })

/-- The move assignment `operator=(MemoryPool&& rhs)` on a store of pool objects:
`this_` and `rhs` are the identities (addresses) of the two objects, which may coincide. -/
def moveAssign (objs : Nat → MemoryPool) (this_ rhs : Nat) : Nat → MemoryPool :=
  if this_ ≠ rhs then
    let a := objs this_
    let b := objs rhs
    let objs1 := Function.update objs rhs { b with m_current_block := a.m_current_block }
    Function.update objs1 this_
      { m_current_block := b.m_current_block
        m_current_slot := b.m_current_slot
        m_last_slot := b.m_last_slot
        m_free_slots := b.m_free_slots }
  else
    objs

/-! ## Runs of client calls -/

/-- A call made by a client of the pool. -/
inductive Op where
  | alloc
  | dealloc (ptr : Nat)
deriving DecidableEq, Repr

/-- A pool in use: the pool object, the heap, and the addresses that `alloc` has
returned and that have not been given back with `dealloc` (most recent first). -/
structure Run where
  pool : MemoryPool
  heap : Heap
  live : List Nat

/-- A freshly constructed pool on a heap where the system allocator was never called. -/
def Run.init (mem : Memory) : Run :=
  { pool := MemoryPool.empty, heap := { mem := mem, news := 0, deleted := [] }, live := [] }

/-- How a sequence of client calls ends. -/
inductive RunResult where
  /-- Every call had defined behaviour and the calls left this state. -/
  | done (r : Run)
  /-- The client broke the contract of `dealloc`: the address given was not live. -/
  | contractBroken
  /-- A call of `alloc` reached the end of the function without a `return`: the
  behaviour of the program is undefined and the run has no defined continuation. -/
  | undefined

/-- One client call.  A call of `alloc` that executes a `return` hands out the address
returned; one that ends with `std::bad_alloc` hands out nothing and the client goes on;
one that ends without a `return` has undefined behaviour.  `dealloc` may only be given
an address that is live. -/
def step (cfg : Config) (sys : Nat → Option Nat) (r : Run) : Op → RunResult
  | Op.alloc =>
    match alloc cfg sys r.pool r.heap with
    | (Outcome.ret a, p, h) => RunResult.done { pool := p, heap := h, live := a :: r.live }
    | (Outcome.badAlloc, p, h) => RunResult.done { pool := p, heap := h, live := r.live }
    | (Outcome.noReturn, _, _) => RunResult.undefined
  | Op.dealloc ptr =>
    if ptr ∈ r.live then
      RunResult.done { pool := (dealloc cfg r.pool r.heap ptr).1
                       heap := (dealloc cfg r.pool r.heap ptr).2
                       live := r.live.erase ptr }
    else RunResult.contractBroken

/-- A sequence of client calls.  The run stops at the first call that breaks the
contract or has undefined behaviour. -/
def exec (cfg : Config) (sys : Nat → Option Nat) : Run → List Op → RunResult
  | r, [] => RunResult.done r
  | r, op :: ops =>
    match step cfg sys r op with
    | RunResult.done r1 => exec cfg sys r1 ops
    | RunResult.contractBroken => RunResult.contractBroken
    | RunResult.undefined => RunResult.undefined

/-- The outcomes of `k` consecutive calls of `alloc`, with the pool and heap after them.
Once a call has ended without a `return` the program has undefined behaviour; the
entries after it and the final pool and heap only say what the statements of the source
do from the state in which that call reached the end of the function. -/
def allocMany (cfg : Config) (sys : Nat → Option Nat) :
    Nat → MemoryPool → Heap → List Outcome × MemoryPool × Heap
  | 0, self, h => ([], self, h)
  | k + 1, self, h =>
    let r := alloc cfg sys self h
    let rest := allocMany cfg sys k r.2.1 r.2.2
    (r.1 :: rest.1, rest.2.1, rest.2.2)

/-- The outcomes of `k` consecutive calls of `new_element`, read like `allocMany`. -/
def newMany (cfg : Config) (sys : Nat → Option Nat) (construct : Memory → Nat → Memory) :
    Nat → MemoryPool → Heap → List Outcome × MemoryPool × Heap
  | 0, self, h => ([], self, h)
  | k + 1, self, h =>
    let r := new_element cfg sys construct self h
    let rest := newMany cfg sys construct k r.2.1 r.2.2
    (r.1 :: rest.1, rest.2.1, rest.2.2)

/-- The address of the first slot of the block that starts at `chunk`: the block start
plus the link header plus the padding computed by `pad_pointer`. -/
def firstSlot (cfg : Config) (chunk : Nat) : Nat :=
  chunk + cfg.ptrSize + pad_pointer cfg.wordBits (chunk + cfg.ptrSize) cfg.slotAlign

/-- The free list as a list: following the links from `head` visits exactly the
addresses of `l`, none of them null, and ends at null. -/
def FreeChain (cfg : Config) (mem : Memory) : Nat → List Nat → Prop
  | head, [] => head = 0
  | head, a :: l => head = a ∧ a ≠ 0 ∧ FreeChain cfg mem (loadPtr mem a cfg.ptrSize) l

/-- What is assumed of the system allocator: it never returns null, every block lies
inside the address space of a `ptrSize`-byte pointer, and the blocks returned by
different calls do not overlap. -/
structure SysOK (cfg : Config) (sys : Nat → Option Nat) : Prop where
  nonnull : ∀ i c, sys i = some c → 0 < c
  inRange : ∀ i c, sys i = some c → c + cfg.BlockSize ≤ 256 ^ cfg.ptrSize
  disjoint : ∀ i j ci cj, i ≠ j → sys i = some ci → sys j = some cj →
    ci + cfg.BlockSize ≤ cj ∨ cj + cfg.BlockSize ≤ ci

/-- The invariant of a pool in use, with `free` the content of its free list: the free
list is intact in memory, no address is both free and live or occurs twice, every free
or live address is the first slot of a block obtained from the system allocator, and the
cursor and bound are either both null or those of such a block after its first slot was
handed out. -/
structure Inv (cfg : Config) (sys : Nat → Option Nat) (r : Run) (free : List Nat) : Prop where
  chain : FreeChain cfg r.heap.mem r.pool.m_free_slots free
  nodup : (free ++ r.live).Nodup
  issued : ∀ a ∈ free ++ r.live, ∃ i c, i < r.heap.news ∧ sys i = some c ∧ a = firstSlot cfg c
  cursor : (r.pool.m_current_slot = 0 ∧ r.pool.m_last_slot = 0) ∨
    ∃ i c, i < r.heap.news ∧ sys i = some c ∧
      r.pool.m_current_slot = firstSlot cfg c + cfg.slotSize ∧
      r.pool.m_last_slot = c + cfg.BlockSize - cfg.slotSize + 1

/-- The block chain as a list: following the links stored at the start of each block
from `head` visits exactly the blocks of `l`, none of them null, and ends at null.  The
chain is linked through `Slot::next` exactly like the free list. -/
def BlockChain (cfg : Config) (mem : Memory) (head : Nat) (l : List Nat) : Prop :=
  FreeChain cfg mem head l

/-- The blocks returned by the first `n` calls of `operator new`, oldest first (calls
that threw returned none). -/
def acquired (sys : Nat → Option Nat) (n : Nat) : List Nat :=
  (List.range n).filterMap sys

/-- Every block of the system allocator holds its first slot: the slot that follows
the link header and the alignment padding ends inside the block.  This is the case
when the blocks are aligned to the slot alignment. -/
def BlocksHoldFirstSlot (cfg : Config) (sys : Nat → Option Nat) : Prop :=
  ∀ i c, sys i = some c → firstSlot cfg c + cfg.slotSize ≤ c + cfg.BlockSize

/-! ## Concrete instances -/

/-- The default `BlockSize = 4096` with 8-byte slots on a 64-bit platform. -/
def cfg64 : Config :=
  { BlockSize := 4096, slotSize := 8, slotAlign := 8, ptrSize := 8, wordBits := 64 }

/-- A system allocator that hands out consecutive 4096-byte blocks from address 4096
and fails from its 1025th call on. -/
def sysBump (i : Nat) : Option Nat := if i < 1024 then some (4096 * (i + 1)) else none

/-- Memory filled with zero bytes. -/
def zeroMem : Memory := fun _ => 0

/-- A heap with zeroed memory on which `operator new` has been called `n` times. -/
def zeroHeap (n : Nat) : Heap := { mem := zeroMem, news := n, deleted := [] }

/-- An element type whose constructor and destructor leave memory as it is. -/
def trivialLifecycle : Memory → Nat → Memory := fun m _ => m

/-- The smallest instance the `static_assert` admits: `MemoryPool<T, 16>` with an 8-byte
`T` on a 64-bit platform; every block holds exactly one slot. -/
def cfgTiny : Config :=
  { BlockSize := 16, slotSize := 8, slotAlign := 8, ptrSize := 8, wordBits := 64 }

/-- A system allocator that hands out consecutive 16-byte blocks from address 16 and
fails from its 1025th call on. -/
def sysBump16 (i : Nat) : Option Nat := if i < 1024 then some (16 * (i + 1)) else none

/-- The state of a `cfgTiny` pool after `alloc` (returns 24), `alloc` (returns 40) and
`dealloc(24)`: two blocks, at 16 and 32, the slot 24 on the free list, the slot 40
live. -/
def tinyRun : Run :=
  { pool := ⟨32, 48, 41, 24⟩
    heap := { mem := storePtr (storePtr (storePtr zeroMem 16 8 0) 32 8 16) 24 8 0
              news := 2
              deleted := [] }
    live := [40] }

/-- A 16-byte element type with 8-byte alignment in 4096-byte blocks on a 64-bit
platform: the slot is larger than a pointer. -/
def cfgWide : Config :=
  { BlockSize := 4096, slotSize := 16, slotAlign := 8, ptrSize := 8, wordBits := 64 }

/-- Two pools on one heap of the default instance: the pool `0` owns the block at
12288, the pool `1` owns the blocks at 8192 and 4096 and has the slot 4104 on its free
list. -/
def twoPools (i : Nat) : MemoryPool :=
  if i = 0 then ⟨12288, 12304, 16377, 0⟩ else ⟨8192, 8208, 12281, 4104⟩

/-- The heap of `twoPools`: the header of the block at 8192 links to the block at
4096; the headers of the blocks at 4096 and 12288 and the slot 4104 hold null. -/
def twoPoolHeap : Heap :=
  { mem := storePtr zeroMem 8192 8 4096, news := 3, deleted := [] }

/-- Two pool objects of the default instance after `Z = MemoryPool(std::move(X))` for a
pool `X` that owned the block at 4096 with the slot 4104 on its free list: object `0`
is `Z`, object `1` is the moved-from `X`. -/
def movedFromPools (i : Nat) : MemoryPool :=
  if i = 0 then (moveConstruct ⟨4096, 4112, 8185, 4104⟩).1
  else (moveConstruct ⟨4096, 4112, 8185, 4104⟩).2

/-- The state of a default-instance pool after one `alloc` on the empty pool: the block
at 4096 was acquired and its first slot 4104 handed out; the cursor 4112 is below the
bound 8185 and the free list is empty. -/
def afterFirstAlloc : Run :=
  { pool := ⟨4096, 4112, 8185, 0⟩
    heap := { mem := storePtr zeroMem 4096 8 0, news := 1, deleted := [] }
    live := [4104] }

/-- A 16-byte element type with 16-byte alignment in 4096-byte blocks on a 64-bit
platform. -/
def cfgAlign16 : Config :=
  { BlockSize := 4096, slotSize := 16, slotAlign := 16, ptrSize := 8, wordBits := 64 }

/-! ## Reading and writing memory -/

theorem storePtr_frame (n : Nat) : ∀ (m : Memory) (p v a : Nat),
    (a < p ∨ p + n ≤ a) → storePtr m p n v a = m a := by
  induction n with
  | zero => intro m p v a _; rfl
  | succ n ih =>
    intro m p v a h
    have hne : a ≠ p := by omega
    rw [storePtr, ih _ _ _ _ (by omega), Function.update_noteq hne]

theorem loadPtr_congr (n : Nat) : ∀ (m m1 : Memory) (p : Nat),
    (∀ a, p ≤ a → a < p + n → m1 a = m a) → loadPtr m1 p n = loadPtr m p n := by
  induction n with
  | zero => intro m m1 p _; rfl
  | succ n ih =>
    intro m m1 p h
    rw [loadPtr, loadPtr, h p (le_refl p) (by omega),
      ih m m1 (p + 1) (fun a h1 h2 => h a (by omega) (by omega))]

theorem loadPtr_storePtr_same (n : Nat) : ∀ (m : Memory) (p v : Nat),
    v < 256 ^ n → loadPtr (storePtr m p n v) p n = v := by
  induction n with
  | zero => intro m p v hv; simp at hv; simp [loadPtr, hv]
  | succ n ih =>
    intro m p v hv
    have hv1 : v / 256 < 256 ^ n := by
      rw [Nat.div_lt_iff_lt_mul (by norm_num)]
      rw [pow_succ] at hv
      exact hv
    rw [storePtr, loadPtr, ih _ _ _ hv1, storePtr_frame n _ _ _ _ (Or.inl (by omega)),
      Function.update_same]
    omega

theorem loadPtr_storePtr_disjoint (n : Nat) (m : Memory) (p q v : Nat)
    (h : q + n ≤ p ∨ p + n ≤ q) : loadPtr (storePtr m p n v) q n = loadPtr m q n :=
  loadPtr_congr n m _ q (fun a h1 h2 => storePtr_frame n m p v a (by omega))

theorem loadPtr_lt (n : Nat) : ∀ (m : Memory) (p : Nat), loadPtr m p n < 256 ^ n := by
  induction n with
  | zero => intro m p; simp [loadPtr]
  | succ n ih =>
    intro m p
    have h1 := ih m (p + 1)
    have h2 : m p % 256 < 256 := Nat.mod_lt _ (by norm_num)
    rw [loadPtr, pow_succ]
    omega

/-! ## Single calls of `alloc` and `dealloc` -/

theorem alloc_of_free_ne (cfg : Config) (sys : Nat → Option Nat) (self : MemoryPool)
    (h : Heap) (hfree : self.m_free_slots ≠ 0) :
    alloc cfg sys self h = (Outcome.ret self.m_free_slots,
      { self with m_free_slots := loadPtr h.mem self.m_free_slots cfg.ptrSize }, h) := by
  simp [alloc, hfree]

theorem alloc_of_cursor_lt (cfg : Config) (sys : Nat → Option Nat) (self : MemoryPool)
    (h : Heap) (hfree : self.m_free_slots = 0) (hlt : self.m_current_slot < self.m_last_slot) :
    alloc cfg sys self h = (Outcome.noReturn, self, h) := by
  simp [alloc, hfree, Nat.not_le.mpr hlt]

theorem alloc_of_new_block (cfg : Config) (sys : Nat → Option Nat) (self : MemoryPool)
    (h : Heap) (c : Nat) (hfree : self.m_free_slots = 0)
    (hge : self.m_last_slot ≤ self.m_current_slot) (hsys : sys h.news = some c) :
    alloc cfg sys self h = (Outcome.ret (firstSlot cfg c),
      { m_current_block := c
        m_current_slot := firstSlot cfg c + cfg.slotSize
        m_last_slot := c + cfg.BlockSize - cfg.slotSize + 1
        m_free_slots := 0 },
      { h with mem := storePtr h.mem c cfg.ptrSize self.m_current_block,
               news := h.news + 1 }) := by
  simp [alloc, allocate_block, hfree, hge, hsys, firstSlot]

theorem alloc_of_bad_alloc (cfg : Config) (sys : Nat → Option Nat) (self : MemoryPool)
    (h : Heap) (hfree : self.m_free_slots = 0)
    (hge : self.m_last_slot ≤ self.m_current_slot) (hsys : sys h.news = none) :
    alloc cfg sys self h = (Outcome.badAlloc, self, { h with news := h.news + 1 }) := by
  simp [alloc, allocate_block, hfree, hge, hsys]

theorem dealloc_of_ne (cfg : Config) (self : MemoryPool) (h : Heap) (p : Nat) (hp : p ≠ 0) :
    dealloc cfg self h p = ({ self with m_free_slots := p },
      { h with mem := storePtr h.mem p cfg.ptrSize self.m_free_slots }) := by
  simp [dealloc, hp]

/-- C1 (the code diverges from the claim): with an empty free list and the cursor below
the bound, here the state right after the first block was acquired, `alloc` executes no
`return` statement: it yields no address and leaves the cursor where it was, instead of
returning the cursor address `4112` and advancing the cursor to `4120`. -/
theorem alloc_cursor_branch_has_no_return :
    (alloc cfg64 sysBump ⟨4096, 4112, 8185, 0⟩ (zeroHeap 1)).1 = Outcome.noReturn ∧
    (alloc cfg64 sysBump ⟨4096, 4112, 8185, 0⟩ (zeroHeap 1)).1 ≠ Outcome.ret 4112 ∧
    (alloc cfg64 sysBump ⟨4096, 4112, 8185, 0⟩ (zeroHeap 1)).2.1.m_current_slot = 4112 ∧
    (alloc cfg64 sysBump ⟨4096, 4112, 8185, 0⟩ (zeroHeap 1)).2.1.m_current_slot ≠ 4112 + 8 := by
  decide

/-- C2: when the free list is not empty, `alloc` returns the free-list head, the new
free-list head is the link stored in that slot, the block-chain head, cursor and bound
keep their values, and the heap is untouched (no block is acquired, nothing is
written), whatever the cursor and the bound are. -/
theorem alloc_pops_free_list (cfg : Config) (sys : Nat → Option Nat) (self : MemoryPool)
    (h : Heap) (hfree : self.m_free_slots ≠ 0) :
    (alloc cfg sys self h).1 = Outcome.ret self.m_free_slots ∧
    (alloc cfg sys self h).2.1.m_free_slots = loadPtr h.mem self.m_free_slots cfg.ptrSize ∧
    (alloc cfg sys self h).2.1.m_current_block = self.m_current_block ∧
    (alloc cfg sys self h).2.1.m_current_slot = self.m_current_slot ∧
    (alloc cfg sys self h).2.1.m_last_slot = self.m_last_slot ∧
    (alloc cfg sys self h).2.2 = h := by
  rw [alloc_of_free_ne cfg sys self h hfree]
  exact ⟨rfl, rfl, rfl, rfl, rfl, rfl⟩

/-- C2, at a pool whose free list holds the slot `4104` and whose cursor is below the
bound. -/
theorem alloc_pops_free_list_witness :
    (alloc cfg64 sysBump ⟨4096, 4112, 8185, 4104⟩ (zeroHeap 1)).1 = Outcome.ret 4104 ∧
    (alloc cfg64 sysBump ⟨4096, 4112, 8185, 4104⟩ (zeroHeap 1)).2.1.m_free_slots
      = loadPtr zeroMem 4104 8 ∧
    (alloc cfg64 sysBump ⟨4096, 4112, 8185, 4104⟩ (zeroHeap 1)).2.1.m_current_block = 4096 ∧
    (alloc cfg64 sysBump ⟨4096, 4112, 8185, 4104⟩ (zeroHeap 1)).2.1.m_current_slot = 4112 ∧
    (alloc cfg64 sysBump ⟨4096, 4112, 8185, 4104⟩ (zeroHeap 1)).2.1.m_last_slot = 8185 ∧
    (alloc cfg64 sysBump ⟨4096, 4112, 8185, 4104⟩ (zeroHeap 1)).2.2 = zeroHeap 1 :=
  alloc_pops_free_list cfg64 sysBump ⟨4096, 4112, 8185, 4104⟩ (zeroHeap 1) (by decide)

/-- C3: for a non-null `p`, `dealloc(p)` stores the previous free-list head in the link
of the slot at `p` and makes `p` the free-list head; the block-chain head, the cursor
and the bound keep their values; every byte of memory outside the link at `p` is
unchanged, so the link of every slot and block header that does not overlap it reads as
before; no call of `operator new` or `operator delete` is made.  (The pool's members are
machine pointers, so the previous head fits in `ptrSize` bytes.) -/
theorem dealloc_pushes_and_frames (cfg : Config) (self : MemoryPool) (h : Heap) (p : Nat)
    (hp : p ≠ 0) (hfit : self.m_free_slots < 256 ^ cfg.ptrSize) :
    loadPtr (dealloc cfg self h p).2.mem p cfg.ptrSize = self.m_free_slots ∧
    (dealloc cfg self h p).1.m_free_slots = p ∧
    (dealloc cfg self h p).1.m_current_block = self.m_current_block ∧
    (dealloc cfg self h p).1.m_current_slot = self.m_current_slot ∧
    (dealloc cfg self h p).1.m_last_slot = self.m_last_slot ∧
    (∀ a, a < p ∨ p + cfg.ptrSize ≤ a → (dealloc cfg self h p).2.mem a = h.mem a) ∧
    (∀ q, q + cfg.ptrSize ≤ p ∨ p + cfg.ptrSize ≤ q →
      loadPtr (dealloc cfg self h p).2.mem q cfg.ptrSize = loadPtr h.mem q cfg.ptrSize) ∧
    (dealloc cfg self h p).2.news = h.news ∧
    (dealloc cfg self h p).2.deleted = h.deleted := by
  rw [dealloc_of_ne cfg self h p hp]
  refine ⟨loadPtr_storePtr_same _ _ _ _ hfit, rfl, rfl, rfl, rfl, ?_, ?_, rfl, rfl⟩
  · intro a ha
    exact storePtr_frame _ _ _ _ _ ha
  · intro q hq
    exact loadPtr_storePtr_disjoint _ _ _ _ _ hq

/-- C3, at a pool with two blocks whose free list holds `4104`, for `p = 8200`. -/
theorem dealloc_pushes_and_frames_witness :
    ((8200 : Nat) ≠ 0 ∧ (4104 : Nat) < 256 ^ 8) ∧
    loadPtr (dealloc cfg64 ⟨8192, 8208, 12281, 4104⟩ (zeroHeap 2) 8200).2.mem 8200 8 = 4104 ∧
    (dealloc cfg64 ⟨8192, 8208, 12281, 4104⟩ (zeroHeap 2) 8200).1 =
      ⟨8192, 8208, 12281, 8200⟩ ∧
    (∀ a, a < 8200 ∨ 8200 + 8 ≤ a →
      (dealloc cfg64 ⟨8192, 8208, 12281, 4104⟩ (zeroHeap 2) 8200).2.mem a = zeroMem a) ∧
    (dealloc cfg64 ⟨8192, 8208, 12281, 4104⟩ (zeroHeap 2) 8200).2.news = 2 :=
  have t := dealloc_pushes_and_frames cfg64 ⟨8192, 8208, 12281, 4104⟩ (zeroHeap 2) 8200
    (by decide) (by decide)
  ⟨⟨by decide, by decide⟩, t.1, by decide, t.2.2.2.2.2.1, t.2.2.2.2.2.2.2.1⟩

/-- C4: for a non-null `p`, `dealloc(p)` immediately followed by `alloc()` returns `p`,
makes no call of `operator new`, and the pool's four members are again what they were
before the `dealloc`.  (The pool's members are machine pointers, so the free-list head
fits in `ptrSize` bytes.) -/
theorem dealloc_then_alloc (cfg : Config) (sys : Nat → Option Nat) (self : MemoryPool)
    (h : Heap) (p : Nat) (hp : p ≠ 0) (hfit : self.m_free_slots < 256 ^ cfg.ptrSize) :
    (alloc cfg sys (dealloc cfg self h p).1 (dealloc cfg self h p).2).1 = Outcome.ret p ∧
    (alloc cfg sys (dealloc cfg self h p).1 (dealloc cfg self h p).2).2.1 = self ∧
    (alloc cfg sys (dealloc cfg self h p).1 (dealloc cfg self h p).2).2.2.news = h.news := by
  rw [dealloc_of_ne cfg self h p hp, alloc_of_free_ne _ _ _ _ hp]
  refine ⟨rfl, ?_, rfl⟩
  show ({ m_current_block := self.m_current_block, m_current_slot := self.m_current_slot,
          m_last_slot := self.m_last_slot,
          m_free_slots := loadPtr (storePtr h.mem p cfg.ptrSize self.m_free_slots) p
            cfg.ptrSize } : MemoryPool) = self
  rw [loadPtr_storePtr_same _ _ _ _ hfit]

/-- C4, at a pool whose cursor has reached the bound (so that an `alloc` without the
preceding `dealloc` would have acquired a block), for `p = 4104`. -/
theorem dealloc_then_alloc_witness :
    ((4104 : Nat) ≠ 0 ∧ (0 : Nat) < 256 ^ 8) ∧
    (alloc cfg64 sysBump (dealloc cfg64 ⟨4096, 8192, 8185, 0⟩ (zeroHeap 1) 4104).1
      (dealloc cfg64 ⟨4096, 8192, 8185, 0⟩ (zeroHeap 1) 4104).2).1 = Outcome.ret 4104 ∧
    (alloc cfg64 sysBump (dealloc cfg64 ⟨4096, 8192, 8185, 0⟩ (zeroHeap 1) 4104).1
      (dealloc cfg64 ⟨4096, 8192, 8185, 0⟩ (zeroHeap 1) 4104).2).2.1 =
        ⟨4096, 8192, 8185, 0⟩ ∧
    (alloc cfg64 sysBump (dealloc cfg64 ⟨4096, 8192, 8185, 0⟩ (zeroHeap 1) 4104).1
      (dealloc cfg64 ⟨4096, 8192, 8185, 0⟩ (zeroHeap 1) 4104).2).2.2.news = 1 :=
  ⟨⟨by decide, by decide⟩,
    dealloc_then_alloc cfg64 sysBump ⟨4096, 8192, 8185, 0⟩ (zeroHeap 1) 4104
      (by decide) (by decide)⟩

/-- C9: `dealloc(nullptr)` and `delete_element(nullptr)` return with the pool's four
members and the whole heap (memory and system allocator) exactly as they were; the
destructor of the element type is not run. -/
theorem dealloc_null_is_noop (cfg : Config) (destroy : Memory → Nat → Memory)
    (self : MemoryPool) (h : Heap) :
    dealloc cfg self h 0 = (self, h) ∧ delete_element cfg destroy self h 0 = (self, h) := by
  simp [dealloc, delete_element]

/-! ## Moving a pool -/

/-- C10 (the claim as stated fails): moving from a pool with one block leaves the
source's cursor and bound as they were, so the source is not in the empty state after a
move construction; after a move assignment the source moreover holds the block chain
that the destination had. -/
theorem move_source_not_empty :
    ¬ ((moveConstruct ⟨4096, 4112, 8185, 0⟩).1 = ⟨4096, 4112, 8185, 0⟩ ∧
       (moveConstruct ⟨4096, 4112, 8185, 0⟩).2 = MemoryPool.empty) ∧
    ¬ (moveAssign (fun i => if i = 0 then ⟨8192, 8208, 12281, 0⟩ else ⟨4096, 4112, 8185, 0⟩)
          0 1 0 = ⟨4096, 4112, 8185, 0⟩ ∧
       moveAssign (fun i => if i = 0 then ⟨8192, 8208, 12281, 0⟩ else ⟨4096, 4112, 8185, 0⟩)
          0 1 1 = MemoryPool.empty) := by
  decide

/-- What the two move operations do to the members of the two pools. -/
theorem move_transfers_members_aux (objs : Nat → MemoryPool) (this_ rhs : Nat)
    (hne : this_ ≠ rhs) :
    (moveConstruct (objs rhs)).1 = objs rhs ∧
    (moveConstruct (objs rhs)).2 = { objs rhs with m_current_block := 0 } ∧
    moveAssign objs this_ rhs this_ = objs rhs ∧
    moveAssign objs this_ rhs rhs =
      { objs rhs with m_current_block := (objs this_).m_current_block } ∧
    ∀ other, other ≠ this_ → other ≠ rhs → moveAssign objs this_ rhs other = objs other := by
  refine ⟨rfl, rfl, ?_, ?_, ?_⟩
  · simp [moveAssign, hne]
  · simp [moveAssign, hne, Function.update_noteq (Ne.symm hne)]
  · intro other h1 h2
    simp [moveAssign, hne, Function.update_noteq h1, Function.update_noteq h2]

/-- C10 (amended): move construction and move assignment to a different pool object
both give the destination the source's four members.  Move construction sets the
source's block-chain head to null, move assignment gives the source the block-chain head
that the destination had; in both the source's cursor, bound and free-list head keep
their values, and move assignment touches no third pool object. -/
theorem move_transfers_members (objs : Nat → MemoryPool) (this_ rhs : Nat)
    (hne : this_ ≠ rhs) :
    (moveConstruct (objs rhs)).1 = objs rhs ∧
    (moveConstruct (objs rhs)).2 = { objs rhs with m_current_block := 0 } ∧
    moveAssign objs this_ rhs this_ = objs rhs ∧
    moveAssign objs this_ rhs rhs =
      { objs rhs with m_current_block := (objs this_).m_current_block } ∧
    ∀ other, other ≠ this_ → other ≠ rhs → moveAssign objs this_ rhs other = objs other := by
  refine ⟨rfl, rfl, ?_, ?_, ?_⟩
  · simp [moveAssign, hne]
  · simp [moveAssign, hne, Function.update_noteq (Ne.symm hne)]
  · intro other h1 h2
    simp [moveAssign, hne, Function.update_noteq h1, Function.update_noteq h2]

/-- C10 (amended), for a destination with two blocks and a source with one. -/
theorem move_transfers_members_witness :
    (0 : Nat) ≠ 1 ∧
    (moveConstruct ⟨4096, 4112, 8185, 4104⟩).1 = ⟨4096, 4112, 8185, 4104⟩ ∧
    (moveConstruct ⟨4096, 4112, 8185, 4104⟩).2 = ⟨0, 4112, 8185, 4104⟩ ∧
    moveAssign (fun i => if i = 0 then ⟨8192, 8208, 12281, 0⟩ else ⟨4096, 4112, 8185, 4104⟩)
      0 1 0 = ⟨4096, 4112, 8185, 4104⟩ ∧
    moveAssign (fun i => if i = 0 then ⟨8192, 8208, 12281, 0⟩ else ⟨4096, 4112, 8185, 4104⟩)
      0 1 1 = ⟨8192, 4112, 8185, 4104⟩ :=
  have t := move_transfers_members
    (fun i => if i = 0 then ⟨8192, 8208, 12281, 0⟩ else ⟨4096, 4112, 8185, 4104⟩) 0 1
    (by decide)
  ⟨by decide, t.1, t.2.1, t.2.2.1, t.2.2.2.1⟩

/-! ## The invariant of runs from the empty pool -/

theorem pad_pointer_lt (w ptr align : Nat) (h : 0 < align) : pad_pointer w ptr align < align :=
  Nat.mod_lt _ h

theorem firstSlot_ge (cfg : Config) (c : Nat) : c + cfg.ptrSize ≤ firstSlot cfg c :=
  Nat.le_add_right _ _

theorem firstSlot_lt (cfg : Config) (hcfg : cfg.WF) (c : Nat) :
    firstSlot cfg c < c + cfg.ptrSize + cfg.slotAlign :=
  Nat.add_lt_add_left (pad_pointer_lt _ _ _ hcfg.align_pos) _

theorem align_le_slotSize (cfg : Config) (hcfg : cfg.WF) : cfg.slotAlign ≤ cfg.slotSize :=
  Nat.le_of_dvd (by have := hcfg.ptr_pos; have := hcfg.ptr_le; omega) hcfg.align_dvd

/-- First slots of two disjoint blocks are more than a slot apart. -/
theorem firstSlot_sep (cfg : Config) (hcfg : cfg.WF) (c1 c2 : Nat)
    (h : c1 + cfg.BlockSize ≤ c2) : firstSlot cfg c1 + cfg.slotSize < firstSlot cfg c2 := by
  have h1 := firstSlot_lt cfg hcfg c1
  have h2 := firstSlot_ge cfg c2
  have h3 := align_le_slotSize cfg hcfg
  have h4 := hcfg.static_assert
  have h5 := hcfg.ptr_pos
  omega

/-- Two different first slots of blocks of the system allocator are more than a slot
apart. -/
theorem issued_sep (cfg : Config) (hcfg : cfg.WF) (sys : Nat → Option Nat)
    (hsys : SysOK cfg sys) (a b i j ci cj : Nat) (hi : sys i = some ci) (hj : sys j = some cj)
    (ha : a = firstSlot cfg ci) (hb : b = firstSlot cfg cj) (hab : a ≠ b) :
    a + cfg.slotSize < b ∨ b + cfg.slotSize < a := by
  have hij : i ≠ j := by
    intro e
    subst e
    rw [hi] at hj
    cases hj
    exact hab (ha.trans hb.symm)
  subst ha hb
  rcases hsys.disjoint i j ci cj hij hi hj with h | h
  · exact Or.inl (firstSlot_sep cfg hcfg ci cj h)
  · exact Or.inr (firstSlot_sep cfg hcfg cj ci h)

theorem issued_bounds (cfg : Config) (hcfg : cfg.WF) (sys : Nat → Option Nat)
    (hsys : SysOK cfg sys) (a i c : Nat) (hi : sys i = some c) (ha : a = firstSlot cfg c) :
    0 < a ∧ c ≤ a ∧ a < c + cfg.BlockSize ∧ a < 256 ^ cfg.ptrSize := by
  have h1 := firstSlot_lt cfg hcfg c
  have h2 := firstSlot_ge cfg c
  have h3 := align_le_slotSize cfg hcfg
  have h4 := hcfg.static_assert
  have h5 := hcfg.ptr_pos
  have h6 := hcfg.ptr_le
  have h7 := hsys.inRange i c hi
  subst ha
  omega

theorem freeChain_nil (cfg : Config) (mem : Memory) (head : Nat) :
    FreeChain cfg mem head [] ↔ head = 0 := Iff.rfl

theorem freeChain_cons (cfg : Config) (mem : Memory) (head a : Nat) (l : List Nat) :
    FreeChain cfg mem head (a :: l) ↔
      head = a ∧ a ≠ 0 ∧ FreeChain cfg mem (loadPtr mem a cfg.ptrSize) l := Iff.rfl

theorem freeChain_of_head_zero (cfg : Config) (mem : Memory) (l : List Nat)
    (h : FreeChain cfg mem 0 l) : l = [] := by
  cases l with
  | nil => rfl
  | cons a l =>
    rw [freeChain_cons] at h
    exact absurd h.1.symm h.2.1

theorem freeChain_of_head_ne (cfg : Config) (mem : Memory) (head : Nat) (l : List Nat)
    (h : FreeChain cfg mem head l) (hne : head ≠ 0) :
    ∃ t, l = head :: t ∧ FreeChain cfg mem (loadPtr mem head cfg.ptrSize) t := by
  cases l with
  | nil => exact absurd ((freeChain_nil cfg mem head).mp h) hne
  | cons a t =>
    rw [freeChain_cons] at h
    obtain ⟨h1, _, h3⟩ := h
    subst h1
    exact ⟨t, rfl, h3⟩

theorem freeChain_head_mem (cfg : Config) (mem : Memory) (head : Nat) (l : List Nat)
    (h : FreeChain cfg mem head l) : head = 0 ∨ head ∈ l := by
  cases l with
  | nil => exact Or.inl h
  | cons a t =>
    rw [freeChain_cons] at h
    exact Or.inr (by rw [h.1]; exact List.mem_cons_self _ _)

/-- A store that overlaps none of the links of the free list leaves the list intact. -/
theorem freeChain_store (cfg : Config) (mem : Memory) (p v : Nat) :
    ∀ (l : List Nat) (head : Nat), FreeChain cfg mem head l →
      (∀ a ∈ l, a + cfg.ptrSize ≤ p ∨ p + cfg.ptrSize ≤ a) →
      FreeChain cfg (storePtr mem p cfg.ptrSize v) head l := by
  intro l
  induction l with
  | nil => intro head h _; exact h
  | cons a t ih =>
    intro head h hsep
    rw [freeChain_cons] at h ⊢
    refine ⟨h.1, h.2.1, ?_⟩
    rw [loadPtr_storePtr_disjoint _ _ _ _ _ (hsep a (List.mem_cons_self _ _))]
    exact ih _ h.2.2 (fun b hb => hsep b (List.mem_cons_of_mem _ hb))

theorem inv_init (cfg : Config) (sys : Nat → Option Nat) (mem : Memory) :
    Inv cfg sys (Run.init mem) [] where
  chain := rfl
  nodup := List.nodup_nil
  issued := by intro a ha; simp [Run.init] at ha
  cursor := Or.inl ⟨rfl, rfl⟩

/-- Popping the free list keeps the invariant. -/
theorem inv_alloc_pop (cfg : Config) (sys : Nat → Option Nat) (r : Run) (free : List Nat)
    (hinv : Inv cfg sys r free) (hne : r.pool.m_free_slots ≠ 0) :
    ∃ t, free = r.pool.m_free_slots :: t ∧
      Inv cfg sys
        { pool := { r.pool with
                    m_free_slots := loadPtr r.heap.mem r.pool.m_free_slots cfg.ptrSize }
          heap := r.heap
          live := r.pool.m_free_slots :: r.live } t := by
  obtain ⟨t, ht, hchain⟩ := freeChain_of_head_ne cfg _ _ _ hinv.chain hne
  refine ⟨t, ht, ?_⟩
  have hperm : (t ++ r.pool.m_free_slots :: r.live).Perm (free ++ r.live) := by
    rw [ht]
    exact List.perm_middle
  exact
    { chain := hchain
      nodup := hperm.nodup_iff.mpr hinv.nodup
      issued := fun a ha => hinv.issued a (hperm.mem_iff.mp ha)
      cursor := hinv.cursor }

/-- Acquiring a block and handing out its first slot keeps the invariant. -/
theorem inv_alloc_new_block (cfg : Config) (hcfg : cfg.WF) (sys : Nat → Option Nat)
    (hsys : SysOK cfg sys) (r : Run) (free : List Nat) (hinv : Inv cfg sys r free)
    (hfree : r.pool.m_free_slots = 0) (c : Nat) (hc : sys r.heap.news = some c) :
    Inv cfg sys
      { pool := { m_current_block := c
                  m_current_slot := firstSlot cfg c + cfg.slotSize
                  m_last_slot := c + cfg.BlockSize - cfg.slotSize + 1
                  m_free_slots := 0 }
        heap := { r.heap with mem := storePtr r.heap.mem c cfg.ptrSize r.pool.m_current_block,
                              news := r.heap.news + 1 }
        live := firstSlot cfg c :: r.live } [] := by
  have hnil : free = [] := by
    have := hinv.chain
    rw [hfree] at this
    exact freeChain_of_head_zero cfg _ _ this
  subst hnil
  have hlive : r.live.Nodup := by simpa using hinv.nodup
  have hnew : firstSlot cfg c ∉ r.live := by
    intro hmem
    obtain ⟨i, ci, hi, hci, ha⟩ := hinv.issued _ (by simpa using hmem)
    have hne : i ≠ r.heap.news := Nat.ne_of_lt hi
    rcases hsys.disjoint i r.heap.news ci c hne hci hc with h | h
    · have := firstSlot_sep cfg hcfg ci c h
      omega
    · have := firstSlot_sep cfg hcfg c ci h
      omega
  exact
    { chain := rfl
      nodup := by
        show (firstSlot cfg c :: r.live).Nodup
        exact List.nodup_cons.mpr ⟨hnew, hlive⟩
      issued := by
        intro a ha
        have ha1 : a = firstSlot cfg c ∨ a ∈ r.live := by simpa using ha
        rcases ha1 with ha1 | ha1
        · exact ⟨r.heap.news, c, Nat.lt_succ_self _, hc, ha1⟩
        · obtain ⟨i, ci, hi, hci, e⟩ := hinv.issued a (by simpa using ha1)
          exact ⟨i, ci, Nat.lt_succ_of_lt hi, hci, e⟩
      cursor := Or.inr ⟨r.heap.news, c, Nat.lt_succ_self _, hc, rfl, rfl⟩ }

/-- A failed block acquisition keeps the invariant. -/
theorem inv_alloc_bad_alloc (cfg : Config) (sys : Nat → Option Nat) (r : Run)
    (free : List Nat) (hinv : Inv cfg sys r free) :
    Inv cfg sys
      { pool := r.pool, heap := { r.heap with news := r.heap.news + 1 }, live := r.live }
      free where
  chain := hinv.chain
  nodup := hinv.nodup
  issued := by
    intro a ha
    obtain ⟨i, ci, hi, hci, e⟩ := hinv.issued a ha
    exact ⟨i, ci, Nat.lt_succ_of_lt hi, hci, e⟩
  cursor := by
    rcases hinv.cursor with h | ⟨i, ci, hi, hci, e⟩
    · exact Or.inl h
    · exact Or.inr ⟨i, ci, Nat.lt_succ_of_lt hi, hci, e⟩

/-- Giving back a live address keeps the invariant. -/
theorem inv_dealloc (cfg : Config) (hcfg : cfg.WF) (sys : Nat → Option Nat)
    (hsys : SysOK cfg sys) (r : Run) (free : List Nat) (hinv : Inv cfg sys r free)
    (p : Nat) (hp : p ∈ r.live) :
    p ≠ 0 ∧
    Inv cfg sys
      { pool := { r.pool with m_free_slots := p }
        heap := { r.heap with mem := storePtr r.heap.mem p cfg.ptrSize r.pool.m_free_slots }
        live := r.live.erase p } (p :: free) := by
  obtain ⟨i, ci, _, hci, hpi⟩ := hinv.issued p (List.mem_append_right _ hp)
  have hpb := issued_bounds cfg hcfg sys hsys p i ci hci hpi
  have hpfree : p ∉ free := fun hmem =>
    (List.nodup_append.mp hinv.nodup).2.2 hmem hp
  have hfit : r.pool.m_free_slots < 256 ^ cfg.ptrSize := by
    rcases freeChain_head_mem cfg _ _ _ hinv.chain with h | h
    · rw [h]; exact Nat.pow_pos (by norm_num)
    · obtain ⟨j, cj, _, hcj, e⟩ := hinv.issued _ (List.mem_append_left _ h)
      exact (issued_bounds cfg hcfg sys hsys _ j cj hcj e).2.2.2
  have hsep : ∀ a ∈ free, a + cfg.ptrSize ≤ p ∨ p + cfg.ptrSize ≤ a := by
    intro a ha
    obtain ⟨j, cj, _, hcj, e⟩ := hinv.issued a (List.mem_append_left _ ha)
    have hne : a ≠ p := fun e1 => hpfree (e1 ▸ ha)
    have := issued_sep cfg hcfg sys hsys a p j i cj ci hcj hci e hpi hne
    have := hcfg.ptr_le
    omega
  have hperm : (p :: free ++ r.live.erase p).Perm (free ++ r.live) := by
    have h1 : (p :: r.live.erase p).Perm r.live := (List.perm_cons_erase hp).symm
    exact (List.perm_middle.symm).trans (List.Perm.append_left free h1)
  refine ⟨Nat.pos_iff_ne_zero.mp hpb.1, ?_⟩
  exact
    { chain := by
        show FreeChain cfg (storePtr r.heap.mem p cfg.ptrSize r.pool.m_free_slots) p (p :: free)
        rw [freeChain_cons]
        refine ⟨rfl, Nat.pos_iff_ne_zero.mp hpb.1, ?_⟩
        rw [loadPtr_storePtr_same _ _ _ _ hfit]
        exact freeChain_store cfg _ _ _ _ _ hinv.chain hsep
      nodup := hperm.nodup_iff.mpr hinv.nodup
      issued := fun a ha => hinv.issued a (hperm.mem_iff.mp ha)
      cursor := hinv.cursor }

/-- Every client call that respects the contract keeps the invariant. -/
theorem inv_step (cfg : Config) (hcfg : cfg.WF) (sys : Nat → Option Nat)
    (hsys : SysOK cfg sys) (r : Run) (free : List Nat) (hinv : Inv cfg sys r free)
    (op : Op) (r1 : Run) (hstep : step cfg sys r op = RunResult.done r1) :
    ∃ free1, Inv cfg sys r1 free1 := by
  cases op with
  | alloc =>
    by_cases hfree : r.pool.m_free_slots = 0
    · by_cases hlt : r.pool.m_current_slot < r.pool.m_last_slot
      · simp [step, alloc_of_cursor_lt cfg sys _ _ hfree hlt] at hstep
      · have hge : r.pool.m_last_slot ≤ r.pool.m_current_slot := Nat.le_of_not_lt hlt
        cases hc : sys r.heap.news with
        | none =>
          simp only [step, alloc_of_bad_alloc cfg sys _ _ hfree hge hc,
            RunResult.done.injEq] at hstep
          subst hstep
          exact ⟨free, inv_alloc_bad_alloc cfg sys r free hinv⟩
        | some c =>
          simp only [step, alloc_of_new_block cfg sys _ _ c hfree hge hc,
            RunResult.done.injEq] at hstep
          subst hstep
          exact ⟨[], inv_alloc_new_block cfg hcfg sys hsys r free hinv hfree c hc⟩
    · simp only [step, alloc_of_free_ne cfg sys _ _ hfree, RunResult.done.injEq] at hstep
      subst hstep
      obtain ⟨t, _, ht⟩ := inv_alloc_pop cfg sys r free hinv hfree
      exact ⟨t, ht⟩
  | dealloc p =>
    by_cases hp : p ∈ r.live
    · obtain ⟨hp0, hd⟩ := inv_dealloc cfg hcfg sys hsys r free hinv p hp
      simp only [step, if_pos hp, dealloc_of_ne cfg _ _ p hp0, RunResult.done.injEq] at hstep
      subst hstep
      exact ⟨p :: free, hd⟩
    · simp [step, hp] at hstep

/-- Every run from a state with the invariant ends in a state with the invariant. -/
theorem inv_exec (cfg : Config) (hcfg : cfg.WF) (sys : Nat → Option Nat)
    (hsys : SysOK cfg sys) (ops : List Op) :
    ∀ (r0 r : Run), (∃ free, Inv cfg sys r0 free) → exec cfg sys r0 ops = RunResult.done r →
      ∃ free, Inv cfg sys r free := by
  induction ops with
  | nil =>
    intro r0 r h0 hrun
    simp only [exec, RunResult.done.injEq] at hrun
    subst hrun
    exact h0
  | cons op ops ih =>
    intro r0 r h0 hrun
    obtain ⟨free, hinv⟩ := h0
    cases hs : step cfg sys r0 op with
    | contractBroken => simp [exec, hs] at hrun
    | undefined => simp [exec, hs] at hrun
    | done r1 =>
      simp only [exec, hs] at hrun
      exact ih r1 r (inv_step cfg hcfg sys hsys r0 free hinv op r1 hs) hrun

/-- An address that `alloc` returns in a state with the invariant is not live. -/
theorem inv_alloc_ret_not_live (cfg : Config) (hcfg : cfg.WF) (sys : Nat → Option Nat)
    (hsys : SysOK cfg sys) (r : Run) (free : List Nat) (hinv : Inv cfg sys r free) (a : Nat)
    (hret : (alloc cfg sys r.pool r.heap).1 = Outcome.ret a) :
    a ∉ r.live ∧ ∃ i c, sys i = some c ∧ a = firstSlot cfg c := by
  have hstep : step cfg sys r Op.alloc = RunResult.done
      { pool := (alloc cfg sys r.pool r.heap).2.1
        heap := (alloc cfg sys r.pool r.heap).2.2
        live := a :: r.live } := by
    rcases hal : alloc cfg sys r.pool r.heap with ⟨o, p, h⟩
    rw [hal] at hret
    simp only at hret
    subst hret
    simp only [step, hal]
  obtain ⟨free1, hinv1⟩ := inv_step cfg hcfg sys hsys r free hinv Op.alloc _ hstep
  have hnd : (free1 ++ a :: r.live).Nodup := hinv1.nodup
  have hnd1 : (a :: r.live).Nodup := (List.nodup_append.mp hnd).2.1
  obtain ⟨i, c, _, hc, e⟩ := hinv1.issued a
    (List.mem_append_right _ (List.mem_cons_self _ _))
  exact ⟨(List.nodup_cons.mp hnd1).1, i, c, hc, e⟩

/-- In a state with the invariant no free or live address is one of the slots between
the cursor and the bound. -/
theorem inv_not_in_cursor_region (cfg : Config) (hcfg : cfg.WF) (sys : Nat → Option Nat)
    (hsys : SysOK cfg sys) (r : Run) (free : List Nat) (hinv : Inv cfg sys r free) :
    ∀ a ∈ free ++ r.live, ∀ k,
      r.pool.m_current_slot + k * cfg.slotSize < r.pool.m_last_slot →
      a ≠ r.pool.m_current_slot + k * cfg.slotSize := by
  intro a ha k hk e
  obtain ⟨j, cj, _, hcj, haj⟩ := hinv.issued a ha
  rcases hinv.cursor with ⟨h1, h2⟩ | ⟨i, ci, _, hci, h1, h2⟩
  · rw [h2] at hk
    exact Nat.not_lt_zero _ hk
  · have hb := issued_bounds cfg hcfg sys hsys a j cj hcj haj
    have hfs := firstSlot_ge cfg ci
    have hS := hcfg.static_assert
    have hP := hcfg.ptr_pos
    have hPS := hcfg.ptr_le
    rw [h1, h2] at hk
    rw [h1] at e
    by_cases hij : j = i
    · subst hij
      rw [hcj] at hci
      cases hci
      omega
    · rcases hsys.disjoint j i cj ci hij hcj hci with h | h <;> omega

/-! ## The concrete instances satisfy the assumptions -/

theorem cfg64_wf : cfg64.WF :=
  ⟨by decide, by decide, by decide, ⟨1, by decide⟩, by decide⟩

theorem cfgTiny_wf : cfgTiny.WF :=
  ⟨by decide, by decide, by decide, ⟨1, by decide⟩, by decide⟩

theorem sysBump_ok : SysOK cfg64 sysBump where
  nonnull := by
    intro i c h
    unfold sysBump at h
    split at h
    · cases h; omega
    · cases h
  inRange := by
    intro i c h
    unfold sysBump at h
    have e : cfg64.BlockSize = 4096 := rfl
    have e1 : (256 : Nat) ^ cfg64.ptrSize = 18446744073709551616 := by decide
    split at h
    · cases h; omega
    · cases h
  disjoint := by
    intro i j ci cj hij hi hj
    unfold sysBump at hi hj
    have e : cfg64.BlockSize = 4096 := rfl
    split at hi
    · split at hj
      · cases hi; cases hj; omega
      · cases hj
    · cases hi

theorem sysBump16_ok : SysOK cfgTiny sysBump16 where
  nonnull := by
    intro i c h
    unfold sysBump16 at h
    split at h
    · cases h; omega
    · cases h
  inRange := by
    intro i c h
    unfold sysBump16 at h
    have e : cfgTiny.BlockSize = 16 := rfl
    have e1 : (256 : Nat) ^ cfgTiny.ptrSize = 18446744073709551616 := by decide
    split at h
    · cases h; omega
    · cases h
  disjoint := by
    intro i j ci cj hij hi hj
    unfold sysBump16 at hi hj
    have e : cfgTiny.BlockSize = 16 := rfl
    split at hi
    · split at hj
      · cases hi; cases hj; omega
      · cases hj
    · cases hi

/-! ## No aliasing on runs with defined behaviour -/

/-- On every run with defined behaviour from the empty pool (every `alloc` executed a
`return` or threw, `dealloc` was only given live addresses), with a system allocator
that returns pairwise disjoint blocks: an address returned by the next `alloc` is not
live, the free list is a list of distinct addresses, none of them live, no live address
occurs twice, and no free or live address is one of the slots between the cursor and
the bound. -/
theorem no_alias_on_defined_runs (cfg : Config) (hcfg : cfg.WF) (sys : Nat → Option Nat)
    (hsys : SysOK cfg sys) (mem : Memory) (ops : List Op) (r : Run)
    (hrun : exec cfg sys (Run.init mem) ops = RunResult.done r) :
    (∀ a, (alloc cfg sys r.pool r.heap).1 = Outcome.ret a → a ∉ r.live) ∧
    ∃ free, FreeChain cfg r.heap.mem r.pool.m_free_slots free ∧
      (free ++ r.live).Nodup ∧
      ∀ a ∈ free ++ r.live, ∀ k,
        r.pool.m_current_slot + k * cfg.slotSize < r.pool.m_last_slot →
        a ≠ r.pool.m_current_slot + k * cfg.slotSize := by
  obtain ⟨free, hinv⟩ := inv_exec cfg hcfg sys hsys ops _ r ⟨[], inv_init cfg sys mem⟩ hrun
  refine ⟨fun a ha => (inv_alloc_ret_not_live cfg hcfg sys hsys r free hinv a ha).1, free,
    hinv.chain, hinv.nodup, inv_not_in_cursor_region cfg hcfg sys hsys r free hinv⟩

/-! ## Alignment on runs with defined behaviour -/

/-- The padding of `pad_pointer` brings the address to a multiple of the alignment when
the alignment divides `2 ^ w`. -/
theorem pad_pointer_aligns (w ptr align : Nat) (hdvd : align ∣ 2 ^ w) :
    align ∣ ptr + pad_pointer w ptr align := by
  unfold pad_pointer
  have hW : 0 < 2 ^ w := Nat.pow_pos (by norm_num)
  rw [Nat.mod_mod_of_dvd _ hdvd]
  have h1 : align ∣ align % 2 ^ w := (Nat.dvd_mod_iff hdvd).mpr (dvd_refl _)
  have h2 : ptr % 2 ^ w < 2 ^ w := Nat.mod_lt _ hW
  have h3 : 2 ^ w * (ptr / 2 ^ w) + ptr % 2 ^ w = ptr := Nat.div_add_mod ptr (2 ^ w)
  have h4 : ptr + (align % 2 ^ w + 2 ^ w - ptr % 2 ^ w)
      = 2 ^ w * (ptr / 2 ^ w) + align % 2 ^ w + 2 ^ w := by omega
  have h5 : align ∣ ptr + (align % 2 ^ w + 2 ^ w - ptr % 2 ^ w) := by
    rw [h4]
    exact dvd_add (dvd_add (dvd_mul_of_dvd_left hdvd _) h1) hdvd
  apply Nat.dvd_of_mod_eq_zero
  rw [Nat.add_mod, Nat.mod_mod, ← Nat.add_mod]
  exact Nat.mod_eq_zero_of_dvd h5

theorem firstSlot_aligned (cfg : Config) (k : Nat) (hpow : cfg.slotAlign = 2 ^ k)
    (hk : k ≤ cfg.wordBits) (c : Nat) : cfg.slotAlign ∣ firstSlot cfg c := by
  have hdvd : cfg.slotAlign ∣ 2 ^ cfg.wordBits := by
    rw [hpow]
    exact pow_dvd_pow 2 hk
  exact pad_pointer_aligns cfg.wordBits (c + cfg.ptrSize) cfg.slotAlign hdvd

/-- On every run with defined behaviour from the empty pool, when the slot alignment is
a power of two (representable in a machine word): the address returned by the next
`alloc` and every live address are multiples of the slot alignment, and so of the
alignment of the element type, which divides it. -/
theorem aligned_on_defined_runs (cfg : Config) (hcfg : cfg.WF) (k : Nat)
    (hpow : cfg.slotAlign = 2 ^ k) (hk : k ≤ cfg.wordBits) (elemAlign : Nat)
    (helem : elemAlign ∣ cfg.slotAlign) (sys : Nat → Option Nat) (hsys : SysOK cfg sys)
    (mem : Memory) (ops : List Op) (r : Run)
    (hrun : exec cfg sys (Run.init mem) ops = RunResult.done r) :
    (∀ a, (alloc cfg sys r.pool r.heap).1 = Outcome.ret a →
      cfg.slotAlign ∣ a ∧ elemAlign ∣ a) ∧
    ∀ a ∈ r.live, cfg.slotAlign ∣ a ∧ elemAlign ∣ a := by
  obtain ⟨free, hinv⟩ := inv_exec cfg hcfg sys hsys ops _ r ⟨[], inv_init cfg sys mem⟩ hrun
  constructor
  · intro a ha
    obtain ⟨_, i, c, _, e⟩ := inv_alloc_ret_not_live cfg hcfg sys hsys r free hinv a ha
    have h := firstSlot_aligned cfg k hpow hk c
    rw [← e] at h
    exact ⟨h, dvd_trans helem h⟩
  · intro a ha
    obtain ⟨i, c, _, _, e⟩ := hinv.issued a (List.mem_append_right _ ha)
    have h := firstSlot_aligned cfg k hpow hk c
    rw [← e] at h
    exact ⟨h, dvd_trans helem h⟩

/-! ## Filling a block -/

/-- Once the free list is empty and the cursor is below the bound, no number of `alloc`
calls returns an address or changes the state. -/
theorem allocMany_of_cursor_lt (cfg : Config) (sys : Nat → Option Nat) (self : MemoryPool)
    (h : Heap) (hfree : self.m_free_slots = 0)
    (hlt : self.m_current_slot < self.m_last_slot) (k : Nat) :
    allocMany cfg sys k self h = (List.replicate k Outcome.noReturn, self, h) := by
  induction k with
  | zero => rfl
  | succ k ih =>
    simp only [allocMany, alloc_of_cursor_lt cfg sys self h hfree hlt, ih,
      List.replicate_succ]

/-- C6 (the code diverges from the claim): for `BlockSize = 4096` and 8-byte slots the
block start is followed by 8 bytes of overhead, so the claim speaks of the first
`(4096 - 8) / 8 = 511` calls.  On the code only the first call returns an address; the
510 calls after it return nothing, and the 512th call returns nothing either and
acquires no second block: `operator new` was called once. -/
theorem alloc_fills_no_block :
    (cfg64.BlockSize - (firstSlot cfg64 4096 - 4096)) / cfg64.slotSize = 511 ∧
    (allocMany cfg64 sysBump 511 MemoryPool.empty (zeroHeap 0)).1
      = Outcome.ret 4104 :: List.replicate 510 Outcome.noReturn ∧
    (allocMany cfg64 sysBump 512 MemoryPool.empty (zeroHeap 0)).1
      = Outcome.ret 4104 :: List.replicate 511 Outcome.noReturn ∧
    (allocMany cfg64 sysBump 512 MemoryPool.empty (zeroHeap 0)).2.2.news = 1 := by
  have h1 : alloc cfg64 sysBump MemoryPool.empty (zeroHeap 0) =
      (Outcome.ret 4104, ⟨4096, 4112, 8185, 0⟩,
        { mem := storePtr zeroMem 4096 8 0, news := 1, deleted := [] }) := rfl
  have h2 : ∀ k, allocMany cfg64 sysBump (k + 1) MemoryPool.empty (zeroHeap 0) =
      (Outcome.ret 4104 :: List.replicate k Outcome.noReturn, ⟨4096, 4112, 8185, 0⟩,
        { mem := storePtr zeroMem 4096 8 0, news := 1, deleted := [] }) := by
    intro k
    simp only [allocMany, h1]
    rw [allocMany_of_cursor_lt cfg64 sysBump _ _ rfl (by decide) k]
  exact ⟨by decide, by rw [h2 510], by rw [h2 511], by rw [h2 511]⟩

/-! ## Element round trip -/

/-- C8 (the code diverges from the claim): for `N = 2` on the default instance, the
second of two `new_element` calls on an empty pool returns no address, so two calls do
not return two addresses. -/
theorem new_element_second_call_has_no_return :
    (newMany cfg64 sysBump trivialLifecycle 2 MemoryPool.empty (zeroHeap 0)).1
      = [Outcome.ret 4104, Outcome.noReturn] ∧
    (newMany cfg64 sysBump trivialLifecycle 2 MemoryPool.empty (zeroHeap 0)).2.1
      = ⟨4096, 4112, 8185, 0⟩ := by
  decide

/-! ## Padding -/

/-- C16: for a power-of-two alignment `2 ^ k` that fits the machine word (`k ≤ w`) and
every address, `pad_pointer`, computed as `(align - addr) % align` with the subtraction
wrapping modulo `2 ^ w`, equals `(align - addr % align) % align`; it is less than the
alignment, and the address plus the padding is a multiple of the alignment. -/
theorem pad_pointer_eq (w k addr : Nat) (hk : k ≤ w) :
    pad_pointer w addr (2 ^ k) = (2 ^ k - addr % 2 ^ k) % 2 ^ k ∧
    pad_pointer w addr (2 ^ k) < 2 ^ k ∧
    2 ^ k ∣ addr + pad_pointer w addr (2 ^ k) := by
  have hA : 0 < 2 ^ k := Nat.pow_pos (by norm_num)
  have hdvd : 2 ^ k ∣ 2 ^ w := pow_dvd_pow 2 hk
  have hx := pad_pointer_lt w addr (2 ^ k) hA
  have hxa := pad_pointer_aligns w addr (2 ^ k) hdvd
  have hy : (2 ^ k - addr % 2 ^ k) % 2 ^ k < 2 ^ k := Nat.mod_lt _ hA
  have hya : 2 ^ k ∣ addr + (2 ^ k - addr % 2 ^ k) % 2 ^ k := by
    have h1 : addr % 2 ^ k < 2 ^ k := Nat.mod_lt _ hA
    have h2 : 2 ^ k * (addr / 2 ^ k) + addr % 2 ^ k = addr := Nat.div_add_mod addr (2 ^ k)
    have h3 : addr + (2 ^ k - addr % 2 ^ k) = 2 ^ k * (addr / 2 ^ k) + 2 ^ k := by omega
    have h4 : 2 ^ k ∣ addr + (2 ^ k - addr % 2 ^ k) := by
      rw [h3]
      exact dvd_add (dvd_mul_right _ _) (dvd_refl _)
    apply Nat.dvd_of_mod_eq_zero
    rw [Nat.add_mod, Nat.mod_mod, ← Nat.add_mod]
    exact Nat.mod_eq_zero_of_dvd h4
  refine ⟨?_, hx, hxa⟩
  have hmod : addr + pad_pointer w addr (2 ^ k) ≡
      addr + (2 ^ k - addr % 2 ^ k) % 2 ^ k [MOD 2 ^ k] := by
    unfold Nat.ModEq
    rw [Nat.mod_eq_zero_of_dvd hxa, Nat.mod_eq_zero_of_dvd hya]
  have hcancel := Nat.ModEq.add_left_cancel' addr hmod
  unfold Nat.ModEq at hcancel
  rw [Nat.mod_eq_of_lt hx, Nat.mod_eq_of_lt hy] at hcancel
  exact hcancel

/-- C16, for the address 4101 and 8-byte alignment in 64-bit arithmetic, where the
subtraction `8 - 4101` wraps around: the padding is 3. -/
theorem pad_pointer_eq_witness :
    (3 ≤ 64 ∧ pad_pointer 64 4101 8 = 3) ∧
    pad_pointer 64 4101 (2 ^ 3) = (2 ^ 3 - 4101 % 2 ^ 3) % 2 ^ 3 ∧
    pad_pointer 64 4101 (2 ^ 3) < 2 ^ 3 ∧
    2 ^ 3 ∣ 4101 + pad_pointer 64 4101 (2 ^ 3) :=
  ⟨⟨by decide, by decide⟩, pad_pointer_eq 64 3 4101 (by decide)⟩

/-! ## Block acquisition -/

theorem allocate_block_of_some (cfg : Config) (sys : Nat → Option Nat) (self : MemoryPool)
    (h : Heap) (c : Nat) (hc : sys h.news = some c) :
    allocate_block cfg sys self h = some
      ({ m_current_block := c
         m_current_slot := firstSlot cfg c
         m_last_slot := c + cfg.BlockSize - cfg.slotSize + 1
         m_free_slots := self.m_free_slots },
       { h with mem := storePtr h.mem c cfg.ptrSize self.m_current_block,
                news := h.news + 1 }) := by
  simp [allocate_block, hc, firstSlot]

/-- The first slot is the least aligned address at or after the end of the link. -/
theorem firstSlot_least (cfg : Config) (k : Nat) (hpow : cfg.slotAlign = 2 ^ k)
    (hk : k ≤ cfg.wordBits) (c a : Nat) (ha : cfg.slotAlign ∣ a)
    (hge : c + cfg.ptrSize ≤ a) : firstSlot cfg c ≤ a := by
  have hA : 0 < cfg.slotAlign := by rw [hpow]; exact Nat.pow_pos (by norm_num)
  have h1 := firstSlot_aligned cfg k hpow hk c
  have h2 : firstSlot cfg c < c + cfg.ptrSize + cfg.slotAlign :=
    Nat.add_lt_add_left (pad_pointer_lt _ _ _ hA) _
  by_contra hlt
  have h3 : cfg.slotAlign ∣ firstSlot cfg c - a := Nat.dvd_sub' h1 ha
  have h4 : cfg.slotAlign ≤ firstSlot cfg c - a := Nat.le_of_dvd (by omega) h3
  omega

/-- C14 (the claim as stated fails): for a 16-byte slot the cursor after acquiring the
block at 4096 is 4104, which is before `chunk_start + slot_size = 4112`: only the
pointer-sized link at the start of the block is skipped. -/
theorem allocate_block_cursor_before_slot_size :
    (allocate_block cfgWide sysBump MemoryPool.empty (zeroHeap 0)).map
      (fun r => r.1.m_current_slot) = some 4104 ∧
    ¬ (4096 + cfgWide.slotSize ≤ 4104) := by
  decide

/-- C14 (amended): for a power-of-two slot alignment, after block acquisition the
cursor is the smallest address that is a multiple of the slot alignment and is at or
after `chunk_start + sizeof(Slot*)`, and the pointer-sized region at the start of the
block holds the link to the previous block. -/
theorem allocate_block_cursor (cfg : Config) (sys : Nat → Option Nat) (self : MemoryPool)
    (h : Heap) (c k : Nat) (hpow : cfg.slotAlign = 2 ^ k) (hk : k ≤ cfg.wordBits)
    (hfit : self.m_current_block < 256 ^ cfg.ptrSize) (hc : sys h.news = some c) :
    ∃ p h1, allocate_block cfg sys self h = some (p, h1) ∧
      cfg.slotAlign ∣ p.m_current_slot ∧
      c + cfg.ptrSize ≤ p.m_current_slot ∧
      (∀ a, cfg.slotAlign ∣ a → c + cfg.ptrSize ≤ a → p.m_current_slot ≤ a) ∧
      loadPtr h1.mem c cfg.ptrSize = self.m_current_block :=
  ⟨_, _, allocate_block_of_some cfg sys self h c hc, firstSlot_aligned cfg k hpow hk c,
    firstSlot_ge cfg c, fun a ha hge => firstSlot_least cfg k hpow hk c a ha hge,
    loadPtr_storePtr_same _ _ _ _ hfit⟩

/-- C14 (amended), for the 16-byte slot instance and a pool that already owns the block
at 4096: the new block at 8192 gets the cursor 8200. -/
theorem allocate_block_cursor_witness :
    (cfgWide.slotAlign = 2 ^ 3 ∧ 3 ≤ cfgWide.wordBits ∧ (4096 : Nat) < 256 ^ cfgWide.ptrSize ∧
      sysBump 1 = some 8192) ∧
    ∃ p h1, allocate_block cfgWide sysBump ⟨4096, 4120, 8177, 0⟩ (zeroHeap 1) = some (p, h1) ∧
      cfgWide.slotAlign ∣ p.m_current_slot ∧
      8192 + cfgWide.ptrSize ≤ p.m_current_slot ∧
      (∀ a, cfgWide.slotAlign ∣ a → 8192 + cfgWide.ptrSize ≤ a → p.m_current_slot ≤ a) ∧
      loadPtr h1.mem 8192 cfgWide.ptrSize = 4096 :=
  ⟨⟨rfl, by decide, by decide, rfl⟩,
    allocate_block_cursor cfgWide sysBump ⟨4096, 4120, 8177, 0⟩ (zeroHeap 1) 8192 3 rfl
      (by decide) (by decide) rfl⟩

/-- C15 (the claim as stated fails): for the default instance the bound after acquiring
the block at 4096 is 8185, not `chunk_start + BlockSize - slot_size = 8184`. -/
theorem allocate_block_bound_is_one_more :
    ¬ ((allocate_block cfg64 sysBump MemoryPool.empty (zeroHeap 0)).map
        (fun r => r.1.m_last_slot) = some (4096 + cfg64.BlockSize - cfg64.slotSize)) := by
  decide

/-- C15 (amended): after block acquisition the bound equals
`chunk_start + BlockSize - slot_size + 1`, one past the last address at which a full
slot still fits inside the block: a slot at `a` fits exactly when `a` is below the
bound. -/
theorem allocate_block_bound (cfg : Config) (sys : Nat → Option Nat) (self : MemoryPool)
    (h : Heap) (c : Nat) (hsize : cfg.slotSize ≤ cfg.BlockSize) (hc : sys h.news = some c) :
    ∃ p h1, allocate_block cfg sys self h = some (p, h1) ∧
      p.m_last_slot = c + cfg.BlockSize - cfg.slotSize + 1 ∧
      ∀ a, a < p.m_last_slot ↔ a + cfg.slotSize ≤ c + cfg.BlockSize :=
  ⟨_, _, allocate_block_of_some cfg sys self h c hc, rfl, fun a => by
    show a < c + cfg.BlockSize - cfg.slotSize + 1 ↔ a + cfg.slotSize ≤ c + cfg.BlockSize
    omega⟩

/-- C15 (amended), for the default instance and the block at 4096: the bound is 8185. -/
theorem allocate_block_bound_witness :
    (cfg64.slotSize ≤ cfg64.BlockSize ∧ sysBump 0 = some 4096) ∧
    ∃ p h1, allocate_block cfg64 sysBump MemoryPool.empty (zeroHeap 0) = some (p, h1) ∧
      p.m_last_slot = 4096 + cfg64.BlockSize - cfg64.slotSize + 1 ∧
      ∀ a, a < p.m_last_slot ↔ a + cfg64.slotSize ≤ 4096 + cfg64.BlockSize :=
  ⟨⟨by decide, rfl⟩,
    allocate_block_bound cfg64 sysBump MemoryPool.empty (zeroHeap 0) 4096 (by decide) rfl⟩

/-- C20: with `BlockSize ≥ 2 * sizeof(Slot)`, a power-of-two slot alignment that
divides the slot size, `sizeof(Slot) ≥ sizeof(Slot*)` and a block start that is a
multiple of the slot alignment, the slot returned by the `alloc` call that acquires the
block lies inside the block behind the header link, and right after the acquisition
(before the returned slot is stepped over) the cursor is strictly below the bound. -/
theorem first_slot_inside_block (cfg : Config) (hcfg : cfg.WF) (k : Nat)
    (hpow : cfg.slotAlign = 2 ^ k) (hk : k ≤ cfg.wordBits) (sys : Nat → Option Nat)
    (self : MemoryPool) (h : Heap) (c : Nat) (hal : cfg.slotAlign ∣ c)
    (hfree : self.m_free_slots = 0) (hge : self.m_last_slot ≤ self.m_current_slot)
    (hc : sys h.news = some c) :
    ∃ a, (alloc cfg sys self h).1 = Outcome.ret a ∧
      c + cfg.ptrSize ≤ a ∧ a + cfg.slotSize ≤ c + cfg.BlockSize ∧
      ∃ p h1, allocate_block cfg sys self h = some (p, h1) ∧
        p.m_current_slot = a ∧ p.m_current_slot < p.m_last_slot := by
  have h1 : firstSlot cfg c ≤ c + cfg.slotSize :=
    firstSlot_least cfg k hpow hk c (c + cfg.slotSize) (dvd_add hal hcfg.align_dvd)
      (Nat.add_le_add_left hcfg.ptr_le c)
  have h2 := hcfg.static_assert
  refine ⟨firstSlot cfg c, ?_, firstSlot_ge cfg c, by omega, _, _,
    allocate_block_of_some cfg sys self h c hc, rfl, ?_⟩
  · rw [alloc_of_new_block cfg sys self h c hfree hge hc]
  · show firstSlot cfg c < c + cfg.BlockSize - cfg.slotSize + 1
    omega

/-- C20, for the 16-byte slot instance and the first block, at 4096: the slot returned
is 4104. -/
theorem first_slot_inside_block_witness :
    (cfgWide.slotAlign = 2 ^ 3 ∧ 3 ≤ cfgWide.wordBits ∧ cfgWide.slotAlign ∣ 4096 ∧
      sysBump 0 = some 4096 ∧
      (alloc cfgWide sysBump MemoryPool.empty (zeroHeap 0)).1 = Outcome.ret 4104) ∧
    ∃ a, (alloc cfgWide sysBump MemoryPool.empty (zeroHeap 0)).1 = Outcome.ret a ∧
      4096 + cfgWide.ptrSize ≤ a ∧ a + cfgWide.slotSize ≤ 4096 + cfgWide.BlockSize ∧
      ∃ p h1, allocate_block cfgWide sysBump MemoryPool.empty (zeroHeap 0) = some (p, h1) ∧
        p.m_current_slot = a ∧ p.m_current_slot < p.m_last_slot :=
  ⟨⟨rfl, by decide, ⟨512, rfl⟩, rfl, by decide⟩,
    first_slot_inside_block cfgWide
      ⟨by decide, by decide, by decide, ⟨2, rfl⟩, by decide⟩ 3 rfl (by decide) sysBump
      MemoryPool.empty (zeroHeap 0) 4096 ⟨512, rfl⟩ rfl (Nat.le_refl 0) rfl⟩

/-! ## When `alloc` calls the system allocator -/

/-- C13: when `alloc` needs a new block (empty free list, cursor at or past the bound)
and `operator new` throws, `alloc` ends with that exception and the pool's four members
are what they were before the call; memory is untouched, so no block has been linked
into the chain. -/
theorem alloc_bad_alloc_leaves_pool (cfg : Config) (sys : Nat → Option Nat)
    (self : MemoryPool) (h : Heap) (hfree : self.m_free_slots = 0)
    (hge : self.m_last_slot ≤ self.m_current_slot) (hfail : sys h.news = none) :
    (alloc cfg sys self h).1 = Outcome.badAlloc ∧
    (alloc cfg sys self h).2.1 = self ∧
    (alloc cfg sys self h).2.2.mem = h.mem ∧
    (alloc cfg sys self h).2.2.deleted = h.deleted := by
  rw [alloc_of_bad_alloc cfg sys self h hfree hge hfail]
  exact ⟨rfl, rfl, rfl, rfl⟩

/-- C13, for a pool whose only block is used up when the system allocator has already
given out its 1024 blocks. -/
theorem alloc_bad_alloc_leaves_pool_witness :
    (sysBump 1024 = none ∧ (8185 : Nat) ≤ 8192) ∧
    (alloc cfg64 sysBump ⟨4096, 8192, 8185, 0⟩ (zeroHeap 1024)).1 = Outcome.badAlloc ∧
    (alloc cfg64 sysBump ⟨4096, 8192, 8185, 0⟩ (zeroHeap 1024)).2.1
      = ⟨4096, 8192, 8185, 0⟩ ∧
    (alloc cfg64 sysBump ⟨4096, 8192, 8185, 0⟩ (zeroHeap 1024)).2.2.mem = zeroMem ∧
    (alloc cfg64 sysBump ⟨4096, 8192, 8185, 0⟩ (zeroHeap 1024)).2.2.deleted = [] :=
  ⟨⟨rfl, by decide⟩,
    alloc_bad_alloc_leaves_pool cfg64 sysBump ⟨4096, 8192, 8185, 0⟩ (zeroHeap 1024) rfl
      (by decide) rfl⟩

/-- A call of `alloc` with defined behaviour (it executes a `return` or throws) calls
the system allocator only when the free list is empty and the cursor has reached the
bound; with a free slot the heap and the block-chain head are returned as they were. -/
theorem alloc_defined_acquires_only_when_exhausted (cfg : Config)
    (sys : Nat → Option Nat) (self : MemoryPool) (h : Heap)
    (hdef : (alloc cfg sys self h).1 ≠ Outcome.noReturn) :
    ((alloc cfg sys self h).2.2.news ≠ h.news →
      self.m_free_slots = 0 ∧ self.m_last_slot ≤ self.m_current_slot) ∧
    (self.m_free_slots ≠ 0 →
      (alloc cfg sys self h).2.2 = h ∧
      (alloc cfg sys self h).2.1.m_current_block = self.m_current_block) := by
  constructor
  · intro hnews
    by_cases hfree : self.m_free_slots = 0
    · refine ⟨hfree, ?_⟩
      by_contra hge
      exact hdef (by rw [alloc_of_cursor_lt cfg sys self h hfree (Nat.lt_of_not_le hge)])
    · exact absurd (by rw [alloc_of_free_ne cfg sys self h hfree]) hnews
  · intro hfree
    rw [alloc_of_free_ne cfg sys self h hfree]
    exact ⟨rfl, rfl⟩

/-! ## Capacity -/

/-- C19: for a block size that is a `size_t` value, with `BlockSize ≥ 2 * sizeof(Slot)`
and `sizeof(Slot) ≥ sizeof(char*) > 0`, `max_size()` is
`(BlockSize - sizeof(char*)) / sizeof(Slot) * ((2 ^ w - 1) / BlockSize)`; the
subtraction does not wrap (the pointer size is at most the block size), the product
does not wrap (it is below `2 ^ w`), and `max_size() * sizeof(Slot) ≤ 2 ^ w - 1`. -/
theorem max_size_eq (cfg : Config) (hblock : 2 * cfg.slotSize ≤ cfg.BlockSize)
    (hslot : cfg.ptrSize ≤ cfg.slotSize) (hptr : 0 < cfg.ptrSize)
    (hword : cfg.BlockSize < 2 ^ cfg.wordBits) :
    max_size cfg = (cfg.BlockSize - cfg.ptrSize) / cfg.slotSize
      * ((2 ^ cfg.wordBits - 1) / cfg.BlockSize) ∧
    cfg.ptrSize ≤ cfg.BlockSize ∧
    (cfg.BlockSize - cfg.ptrSize) / cfg.slotSize * ((2 ^ cfg.wordBits - 1) / cfg.BlockSize)
      < 2 ^ cfg.wordBits ∧
    max_size cfg * cfg.slotSize ≤ 2 ^ cfg.wordBits - 1 := by
  have hS : 0 < cfg.slotSize := Nat.lt_of_lt_of_le hptr hslot
  have hPB : cfg.ptrSize ≤ cfg.BlockSize := by omega
  have hq : (cfg.BlockSize - cfg.ptrSize) / cfg.slotSize * cfg.slotSize
      ≤ cfg.BlockSize := le_trans (Nat.div_mul_le_self _ _) (Nat.sub_le _ _)
  have hq1 : (cfg.BlockSize - cfg.ptrSize) / cfg.slotSize ≤ cfg.BlockSize :=
    le_trans (Nat.div_le_self _ _) (Nat.sub_le _ _)
  have hm : cfg.BlockSize * ((2 ^ cfg.wordBits - 1) / cfg.BlockSize)
      ≤ 2 ^ cfg.wordBits - 1 := Nat.mul_div_le _ _
  have hprod : (cfg.BlockSize - cfg.ptrSize) / cfg.slotSize
      * ((2 ^ cfg.wordBits - 1) / cfg.BlockSize) ≤ 2 ^ cfg.wordBits - 1 :=
    le_trans (Nat.mul_le_mul_right _ hq1) hm
  have hW : 0 < 2 ^ cfg.wordBits := Nat.pow_pos (by norm_num)
  have hlt : (cfg.BlockSize - cfg.ptrSize) / cfg.slotSize
      * ((2 ^ cfg.wordBits - 1) / cfg.BlockSize) < 2 ^ cfg.wordBits := by omega
  have hsub : (cfg.BlockSize % 2 ^ cfg.wordBits + 2 ^ cfg.wordBits
      - cfg.ptrSize % 2 ^ cfg.wordBits) % 2 ^ cfg.wordBits
      = cfg.BlockSize - cfg.ptrSize := by
    rw [Nat.mod_eq_of_lt hword, Nat.mod_eq_of_lt (by omega : cfg.ptrSize < 2 ^ cfg.wordBits)]
    have e : cfg.BlockSize + 2 ^ cfg.wordBits - cfg.ptrSize
        = (cfg.BlockSize - cfg.ptrSize) + 2 ^ cfg.wordBits := by omega
    rw [e, Nat.add_mod_right, Nat.mod_eq_of_lt (by omega)]
  have heq : max_size cfg = (cfg.BlockSize - cfg.ptrSize) / cfg.slotSize
      * ((2 ^ cfg.wordBits - 1) / cfg.BlockSize) := by
    unfold max_size
    simp only []
    rw [hsub, Nat.mod_eq_of_lt hword, Nat.mod_eq_of_lt hlt]
  refine ⟨heq, hPB, hlt, ?_⟩
  rw [heq]
  calc (cfg.BlockSize - cfg.ptrSize) / cfg.slotSize
        * ((2 ^ cfg.wordBits - 1) / cfg.BlockSize) * cfg.slotSize
      = (cfg.BlockSize - cfg.ptrSize) / cfg.slotSize * cfg.slotSize
        * ((2 ^ cfg.wordBits - 1) / cfg.BlockSize) := by ring
    _ ≤ cfg.BlockSize * ((2 ^ cfg.wordBits - 1) / cfg.BlockSize) :=
        Nat.mul_le_mul_right _ hq
    _ ≤ 2 ^ cfg.wordBits - 1 := hm

/-- C19, for the default instance: 511 slots per block times `(2 ^ 64 - 1) / 4096`
blocks. -/
theorem max_size_eq_witness :
    (2 * cfg64.slotSize ≤ cfg64.BlockSize ∧ cfg64.ptrSize ≤ cfg64.slotSize ∧
      0 < cfg64.ptrSize ∧ cfg64.BlockSize < 2 ^ cfg64.wordBits ∧
      max_size cfg64 = 511 * 4503599627370495) ∧
    max_size cfg64 = (cfg64.BlockSize - cfg64.ptrSize) / cfg64.slotSize
      * ((2 ^ cfg64.wordBits - 1) / cfg64.BlockSize) ∧
    cfg64.ptrSize ≤ cfg64.BlockSize ∧
    (cfg64.BlockSize - cfg64.ptrSize) / cfg64.slotSize
      * ((2 ^ cfg64.wordBits - 1) / cfg64.BlockSize) < 2 ^ cfg64.wordBits ∧
    max_size cfg64 * cfg64.slotSize ≤ 2 ^ cfg64.wordBits - 1 :=
  ⟨⟨by decide, by decide, by decide, by decide, by decide⟩,
    max_size_eq cfg64 (by decide) (by decide) (by decide) (by decide)⟩

/-! ## The block chain and the destructor -/

theorem acquired_succ_some (sys : Nat → Option Nat) (n c : Nat) (h : sys n = some c) :
    acquired sys (n + 1) = acquired sys n ++ [c] := by
  simp [acquired, List.range_succ, List.filterMap_append, h]

theorem acquired_succ_none (sys : Nat → Option Nat) (n : Nat) (h : sys n = none) :
    acquired sys (n + 1) = acquired sys n := by
  simp [acquired, List.range_succ, List.filterMap_append, h]

theorem mem_acquired (sys : Nat → Option Nat) (n b : Nat) :
    b ∈ acquired sys n ↔ ∃ i, i < n ∧ sys i = some b := by
  simp [acquired, List.mem_filterMap]

theorem acquired_length_le (sys : Nat → Option Nat) (n : Nat) :
    (acquired sys n).length ≤ n := by
  have h := List.length_filterMap_le sys (List.range n)
  rw [List.length_range] at h
  exact h

theorem acquired_nodup (cfg : Config) (hcfg : cfg.WF) (sys : Nat → Option Nat)
    (hsys : SysOK cfg sys) (n : Nat) : (acquired sys n).Nodup := by
  induction n with
  | zero => simp [acquired]
  | succ n ih =>
    cases hc : sys n with
    | none => rw [acquired_succ_none sys n hc]; exact ih
    | some c =>
      rw [acquired_succ_some sys n c hc]
      refine List.Nodup.append ih (List.nodup_singleton c) ?_
      intro b hb hb1
      rw [List.mem_singleton] at hb1
      subst hb1
      obtain ⟨i, hi, hib⟩ := (mem_acquired sys n b).mp hb
      have hB : 0 < cfg.BlockSize := by
        have := hcfg.static_assert
        have := hcfg.ptr_pos
        have := hcfg.ptr_le
        omega
      rcases hsys.disjoint i n b b (Nat.ne_of_lt hi) hib hc with h | h <;> omega

/-- With enough fuel the loop of the destructor releases exactly the blocks of the
chain, in chain order. -/
theorem destroyLoop_of_chain (cfg : Config) (mem : Memory) :
    ∀ (l : List Nat) (head fuel : Nat) (d : List Nat), BlockChain cfg mem head l →
      l.length ≤ fuel → destroyLoop cfg mem fuel head d = some (d ++ l) := by
  intro l
  induction l with
  | nil =>
    intro head fuel d hl _
    have h0 : head = 0 := hl
    subst h0
    cases fuel <;> simp [destroyLoop]
  | cons a t ih =>
    intro head fuel d hl hfuel
    obtain ⟨h1, h2, h3⟩ := (freeChain_cons cfg mem head a t).mp hl
    subst h1
    cases fuel with
    | zero => simp at hfuel
    | succ f =>
      rw [destroyLoop, if_neg h2, ih _ f _ h3 (by simpa using hfuel)]
      simp

theorem destructor_of_chain (cfg : Config) (self : MemoryPool) (h : Heap) (l : List Nat)
    (fuel : Nat) (hl : BlockChain cfg h.mem self.m_current_block l) (hfuel : l.length ≤ fuel) :
    destructor cfg fuel self h = some { h with deleted := h.deleted ++ l } := by
  simp only [destructor, destroyLoop_of_chain cfg h.mem l _ fuel h.deleted hl hfuel]

/-- A store that overlaps none of the block headers leaves the block chain intact. -/
theorem blockChain_store (cfg : Config) (mem : Memory) (p v head : Nat) (l : List Nat)
    (hl : BlockChain cfg mem head l)
    (hsep : ∀ b ∈ l, b + cfg.ptrSize ≤ p ∨ p + cfg.ptrSize ≤ b) :
    BlockChain cfg (storePtr mem p cfg.ptrSize v) head l :=
  freeChain_store cfg mem p v l head hl hsep

/-- The invariant of the block chain: it consists of the blocks acquired so far, most
recent first.  Every contract-respecting client call keeps it. -/
theorem blockChain_step (cfg : Config) (hcfg : cfg.WF) (sys : Nat → Option Nat)
    (hsys : SysOK cfg sys) (hfits : BlocksHoldFirstSlot cfg sys) (r : Run) (free : List Nat)
    (hinv : Inv cfg sys r free)
    (hchain : BlockChain cfg r.heap.mem r.pool.m_current_block
      (acquired sys r.heap.news).reverse)
    (op : Op) (r1 : Run) (hstep : step cfg sys r op = RunResult.done r1) :
    BlockChain cfg r1.heap.mem r1.pool.m_current_block
      (acquired sys r1.heap.news).reverse := by
  have hP := hcfg.ptr_pos
  have hPS := hcfg.ptr_le
  have hSB := hcfg.static_assert
  cases op with
  | alloc =>
    by_cases hfree : r.pool.m_free_slots = 0
    · by_cases hlt : r.pool.m_current_slot < r.pool.m_last_slot
      · simp [step, alloc_of_cursor_lt cfg sys _ _ hfree hlt] at hstep
      · have hge : r.pool.m_last_slot ≤ r.pool.m_current_slot := Nat.le_of_not_lt hlt
        cases hc : sys r.heap.news with
        | none =>
          simp only [step, alloc_of_bad_alloc cfg sys _ _ hfree hge hc,
            RunResult.done.injEq] at hstep
          subst hstep
          show BlockChain cfg r.heap.mem r.pool.m_current_block
            (acquired sys (r.heap.news + 1)).reverse
          rw [acquired_succ_none sys _ hc]
          exact hchain
        | some c =>
          simp only [step, alloc_of_new_block cfg sys _ _ c hfree hge hc,
            RunResult.done.injEq] at hstep
          subst hstep
          show BlockChain cfg (storePtr r.heap.mem c cfg.ptrSize r.pool.m_current_block) c
            (acquired sys (r.heap.news + 1)).reverse
          rw [acquired_succ_some sys _ c hc, List.reverse_append, List.reverse_singleton,
            List.singleton_append]
          have hfit : r.pool.m_current_block < 256 ^ cfg.ptrSize := by
            rcases freeChain_head_mem cfg _ _ _ hchain with h | h
            · rw [h]; exact Nat.pow_pos (by norm_num)
            · obtain ⟨i, _, hi⟩ := (mem_acquired sys _ _).mp (List.mem_reverse.mp h)
              have := hsys.inRange i _ hi
              omega
          have hsep : ∀ b ∈ (acquired sys r.heap.news).reverse,
              b + cfg.ptrSize ≤ c ∨ c + cfg.ptrSize ≤ b := by
            intro b hb
            obtain ⟨i, hi, hib⟩ := (mem_acquired sys _ _).mp (List.mem_reverse.mp hb)
            rcases hsys.disjoint i r.heap.news b c (Nat.ne_of_lt hi) hib hc with h | h <;>
              omega
          refine (freeChain_cons cfg _ _ _ _).mpr
            ⟨rfl, Nat.pos_iff_ne_zero.mp (hsys.nonnull _ c hc), ?_⟩
          rw [loadPtr_storePtr_same _ _ _ _ hfit]
          exact blockChain_store cfg _ _ _ _ _ hchain hsep
    · simp only [step, alloc_of_free_ne cfg sys _ _ hfree, RunResult.done.injEq] at hstep
      subst hstep
      exact hchain
  | dealloc p =>
    by_cases hp : p ∈ r.live
    · obtain ⟨hp0, _⟩ := inv_dealloc cfg hcfg sys hsys r free hinv p hp
      simp only [step, if_pos hp, dealloc_of_ne cfg _ _ p hp0, RunResult.done.injEq] at hstep
      subst hstep
      obtain ⟨i, ci, _, hci, hpi⟩ := hinv.issued p (List.mem_append_right _ hp)
      have h1 := firstSlot_ge cfg ci
      have h2 := hfits i ci hci
      have hsep : ∀ b ∈ (acquired sys r.heap.news).reverse,
          b + cfg.ptrSize ≤ p ∨ p + cfg.ptrSize ≤ b := by
        intro b hb
        obtain ⟨j, _, hjb⟩ := (mem_acquired sys _ _).mp (List.mem_reverse.mp hb)
        by_cases hij : j = i
        · subst hij
          rw [hjb] at hci
          cases hci
          omega
        · rcases hsys.disjoint j i b ci hij hjb hci with h | h <;> omega
      exact blockChain_store cfg _ _ _ _ _ hchain hsep
    · simp [step, hp] at hstep

/-- Every run from the empty pool ends in a state with both invariants. -/
theorem inv_blockChain_exec (cfg : Config) (hcfg : cfg.WF) (sys : Nat → Option Nat)
    (hsys : SysOK cfg sys) (hfits : BlocksHoldFirstSlot cfg sys) (ops : List Op) :
    ∀ (r0 r : Run),
      ((∃ free, Inv cfg sys r0 free) ∧
        BlockChain cfg r0.heap.mem r0.pool.m_current_block
          (acquired sys r0.heap.news).reverse) →
      exec cfg sys r0 ops = RunResult.done r →
      (∃ free, Inv cfg sys r free) ∧
        BlockChain cfg r.heap.mem r.pool.m_current_block
          (acquired sys r.heap.news).reverse := by
  induction ops with
  | nil =>
    intro r0 r h0 hrun
    simp only [exec, RunResult.done.injEq] at hrun
    subst hrun
    exact h0
  | cons op ops ih =>
    intro r0 r h0 hrun
    obtain ⟨⟨free, hinv⟩, hchain⟩ := h0
    cases hs : step cfg sys r0 op with
    | contractBroken => simp [exec, hs] at hrun
    | undefined => simp [exec, hs] at hrun
    | done r1 =>
      simp only [exec, hs] at hrun
      exact ih r1 r ⟨inv_step cfg hcfg sys hsys r0 free hinv op r1 hs,
        blockChain_step cfg hcfg sys hsys hfits r0 free hinv hchain op r1 hs⟩ hrun

/-- A block aligned to the slot alignment holds its first slot. -/
theorem firstSlot_fits_of_aligned (cfg : Config) (hcfg : cfg.WF) (k : Nat)
    (hpow : cfg.slotAlign = 2 ^ k) (hk : k ≤ cfg.wordBits) (c : Nat)
    (hal : cfg.slotAlign ∣ c) : firstSlot cfg c + cfg.slotSize ≤ c + cfg.BlockSize := by
  have h1 : firstSlot cfg c ≤ c + cfg.slotSize :=
    firstSlot_least cfg k hpow hk c (c + cfg.slotSize) (dvd_add hal hcfg.align_dvd)
      (Nat.add_le_add_left hcfg.ptr_le c)
  have h2 := hcfg.static_assert
  omega

theorem sysBump16_holds_first_slot : BlocksHoldFirstSlot cfgTiny sysBump16 := by
  intro i c h
  unfold sysBump16 at h
  split at h
  · cases h
    exact firstSlot_fits_of_aligned cfgTiny cfgTiny_wf 3 rfl (by decide) _
      ⟨2 * (i + 1), by show 16 * (i + 1) = 8 * (2 * (i + 1)); omega⟩
  · cases h

/-- The link of a live slot overlaps no block header. -/
theorem live_sep_headers (cfg : Config) (hcfg : cfg.WF) (sys : Nat → Option Nat)
    (hsys : SysOK cfg sys) (hfits : BlocksHoldFirstSlot cfg sys) (r : Run) (free : List Nat)
    (hinv : Inv cfg sys r free) (p : Nat) (hp : p ∈ r.live) :
    ∀ b ∈ acquired sys r.heap.news, b + cfg.ptrSize ≤ p ∨ p + cfg.ptrSize ≤ b := by
  have hP := hcfg.ptr_pos
  have hPS := hcfg.ptr_le
  have hSB := hcfg.static_assert
  obtain ⟨i, ci, _, hci, hpi⟩ := hinv.issued p (List.mem_append_right _ hp)
  have h1 := firstSlot_ge cfg ci
  have h2 := hfits i ci hci
  intro b hb
  obtain ⟨j, _, hjb⟩ := (mem_acquired sys _ _).mp hb
  by_cases hij : j = i
  · subst hij
    rw [hjb] at hci
    cases hci
    omega
  · rcases hsys.disjoint j i b ci hij hjb hci with h | h <;> omega

/-- Client calls make no call of `operator delete`. -/
theorem exec_deleted (cfg : Config) (sys : Nat → Option Nat) (ops : List Op) :
    ∀ (r0 r : Run), exec cfg sys r0 ops = RunResult.done r → r.heap.deleted = r0.heap.deleted := by
  induction ops with
  | nil =>
    intro r0 r hrun
    simp only [exec, RunResult.done.injEq] at hrun
    rw [hrun]
  | cons op ops ih =>
    intro r0 r hrun
    cases hs : step cfg sys r0 op with
    | contractBroken => simp [exec, hs] at hrun
    | undefined => simp [exec, hs] at hrun
    | done r1 =>
      simp only [exec, hs] at hrun
      rw [ih r1 r hrun]
      cases op with
      | alloc =>
        by_cases hfree : r0.pool.m_free_slots = 0
        · by_cases hlt : r0.pool.m_current_slot < r0.pool.m_last_slot
          · simp [step, alloc_of_cursor_lt cfg sys _ _ hfree hlt] at hs
          · have hge : r0.pool.m_last_slot ≤ r0.pool.m_current_slot := Nat.le_of_not_lt hlt
            cases hc : sys r0.heap.news with
            | none =>
              simp only [step, alloc_of_bad_alloc cfg sys _ _ hfree hge hc,
                RunResult.done.injEq] at hs
              rw [← hs]
            | some c =>
              simp only [step, alloc_of_new_block cfg sys _ _ c hfree hge hc,
                RunResult.done.injEq] at hs
              rw [← hs]
        · simp only [step, alloc_of_free_ne cfg sys _ _ hfree, RunResult.done.injEq] at hs
          rw [← hs]
      | dealloc p =>
        by_cases hp : p ∈ r0.live
        · simp only [step, if_pos hp, RunResult.done.injEq] at hs
          rw [← hs]
          show (dealloc cfg r0.pool r0.heap p).2.deleted = r0.heap.deleted
          unfold dealloc
          split <;> rfl
        · simp [step, hp] at hs

/-- On every run with defined behaviour from the empty pool, with a system allocator
whose blocks are disjoint and hold their first slot (as blocks aligned to the slot
alignment do): the destructor terminates (any number of loop iterations that is at
least the number of `operator new` calls is enough) and releases exactly the blocks
acquired, most recent first, each once; nothing was released before.  No `dealloc` of a
live address changes a byte of a block header link, and destroying an empty pool
releases nothing. -/
theorem destructor_on_defined_runs (cfg : Config) (hcfg : cfg.WF)
    (sys : Nat → Option Nat) (hsys : SysOK cfg sys) (hfits : BlocksHoldFirstSlot cfg sys)
    (mem : Memory) (ops : List Op) (r : Run)
    (hrun : exec cfg sys (Run.init mem) ops = RunResult.done r) (fuel : Nat)
    (hfuel : r.heap.news ≤ fuel) :
    destructor cfg fuel r.pool r.heap
      = some { r.heap with deleted := (acquired sys r.heap.news).reverse } ∧
    (acquired sys r.heap.news).Nodup ∧
    (∀ p ∈ r.live, ∀ b ∈ acquired sys r.heap.news, ∀ a, b ≤ a → a < b + cfg.ptrSize →
      (dealloc cfg r.pool r.heap p).2.mem a = r.heap.mem a) ∧
    ∀ (fuel0 : Nat) (h0 : Heap), destructor cfg fuel0 MemoryPool.empty h0 = some h0 := by
  obtain ⟨⟨free, hinv⟩, hchain⟩ := inv_blockChain_exec cfg hcfg sys hsys hfits ops _ r
    ⟨⟨[], inv_init cfg sys mem⟩, rfl⟩ hrun
  have hdel : r.heap.deleted = [] := exec_deleted cfg sys ops _ r hrun
  refine ⟨?_, acquired_nodup cfg hcfg sys hsys _, ?_, ?_⟩
  · rw [destructor_of_chain cfg r.pool r.heap _ fuel hchain
      (by rw [List.length_reverse]; exact le_trans (acquired_length_le sys _) hfuel), hdel,
      List.nil_append]
  · intro p hp b hb a ha1 ha2
    obtain ⟨hp0, _⟩ := inv_dealloc cfg hcfg sys hsys r free hinv p hp
    rw [dealloc_of_ne cfg _ _ p hp0]
    have := live_sep_headers cfg hcfg sys hsys hfits r free hinv p hp b hb
    exact storePtr_frame _ _ _ _ _ (by omega)
  · intro fuel0 h0
    exact destructor_of_chain cfg MemoryPool.empty h0 [] fuel0 rfl (Nat.zero_le _)
      |>.trans (by simp)

/-! ## Chains are determined by memory and have no repetition -/

theorem freeChain_unique (cfg : Config) (mem : Memory) :
    ∀ (l1 l2 : List Nat) (head : Nat), FreeChain cfg mem head l1 →
      FreeChain cfg mem head l2 → l1 = l2 := by
  intro l1
  induction l1 with
  | nil =>
    intro l2 head h1 h2
    have h0 : head = 0 := h1
    subst h0
    exact (freeChain_of_head_zero cfg mem l2 h2).symm
  | cons a t ih =>
    intro l2 head h1 h2
    obtain ⟨e1, ha, ht⟩ := (freeChain_cons cfg mem head a t).mp h1
    subst e1
    obtain ⟨t2, e2, ht2⟩ := freeChain_of_head_ne cfg mem head l2 h2 ha
    rw [e2, ih t2 _ ht ht2]

/-- From every member of a chain the rest of the chain is again a chain. -/
theorem freeChain_tail_of_mem (cfg : Config) (mem : Memory) :
    ∀ (l : List Nat) (head a : Nat), FreeChain cfg mem head l → a ∈ l →
      ∃ t, FreeChain cfg mem a (a :: t) ∧ t.length < l.length := by
  intro l
  induction l with
  | nil => intro head a _ ha; cases ha
  | cons b t ih =>
    intro head a hl ha
    obtain ⟨e1, hb, ht⟩ := (freeChain_cons cfg mem head b t).mp hl
    rcases List.mem_cons.mp ha with e | hmem
    · subst e
      exact ⟨t, (freeChain_cons cfg mem a a t).mpr ⟨rfl, hb, ht⟩, Nat.lt_succ_self _⟩
    · obtain ⟨t1, h1, h2⟩ := ih _ a ht hmem
      exact ⟨t1, h1, Nat.lt_succ_of_lt h2⟩

theorem freeChain_nodup (cfg : Config) (mem : Memory) :
    ∀ (l : List Nat) (head : Nat), FreeChain cfg mem head l → l.Nodup := by
  intro l
  induction l with
  | nil => intro _ _; exact List.nodup_nil
  | cons a t ih =>
    intro head hl
    obtain ⟨_, _, ht⟩ := (freeChain_cons cfg mem head a t).mp hl
    refine List.nodup_cons.mpr ⟨?_, ih _ ht⟩
    intro hmem
    obtain ⟨t1, h1, h2⟩ := freeChain_tail_of_mem cfg mem t _ a ht hmem
    have h3 := ((freeChain_cons cfg mem a a t1).mp h1).2.2
    have h4 := freeChain_unique cfg mem t1 t _ h3 ht
    rw [h4] at h2
    exact Nat.lt_irrefl _ h2

/-! ## Destroying pools after a move -/

/-- C11 (the claim as stated fails): take as source the pool `X` that was moved from
when `Z` was move-constructed from it; `X` owns no block, `Z` owns the block at 4096,
and `X` still has the cursor 4112 and the free-list head 4104 inside that block.
After the move assignment `Z = std::move(X)` the source owns the block at 4096 and its
destructor releases it, while the destination's free-list head and cursor are 4104 and
4112, inside the released block. -/
theorem move_assign_releases_block_in_use :
    ((movedFromPools 1).m_current_block = 0 ∧ (movedFromPools 0).m_current_block = 4096) ∧
    (destructor cfg64 1 (moveAssign movedFromPools 0 1 1) (zeroHeap 1)).map
      (fun h => h.deleted) = some [4096] ∧
    (moveAssign movedFromPools 0 1 0).m_free_slots = 4104 ∧
    (moveAssign movedFromPools 0 1 0).m_current_slot = 4112 ∧
    (moveAssign movedFromPools 0 1 0).m_current_slot
      < (moveAssign movedFromPools 0 1 0).m_last_slot ∧
    ¬ (∀ x, (x = (moveAssign movedFromPools 0 1 0).m_free_slots ∨
            x = (moveAssign movedFromPools 0 1 0).m_current_slot) →
        ∀ b1 ∈ [4096], ¬ (b1 ≤ x ∧ x < b1 + cfg64.BlockSize)) := by
  refine ⟨by decide, by decide, by decide, by decide, by decide, ?_⟩
  intro hall
  exact hall 4104 (Or.inl (by decide)) 4096 (by decide) (by decide)

/-- C11 (amended): let the source own the chain of blocks `ls` and, for move
assignment, let the destination own the chain `ld`, the blocks of the two chains being
disjoint; nothing else is assumed of the source.  After a move construction,
destroying the source releases nothing and destroying the new pool afterwards releases
exactly `ls`.  After a move assignment, destroying the source releases exactly `ld`
and destroying the destination afterwards releases exactly `ls`.  In both cases every
block is released once: `ld ++ ls` has no repetition.  The last clause only is
conditional: when the source's free list `fl` and its cursor (if below the bound) lie
in blocks of the source's own chain, then after the move assignment the destination
has the free list `fl`, and neither an address on it nor its cursor (if below the
bound) lies in a block released by the source's destruction. -/
theorem move_then_destroy (cfg : Config) (hblock : 0 < cfg.BlockSize) (h : Heap)
    (objs : Nat → MemoryPool) (this_ rhs : Nat) (hne : this_ ≠ rhs) (ls ld : List Nat)
    (hs : BlockChain cfg h.mem (objs rhs).m_current_block ls)
    (hd : BlockChain cfg h.mem (objs this_).m_current_block ld)
    (hdisj : ∀ b ∈ ls, ∀ b1 ∈ ld, b + cfg.BlockSize ≤ b1 ∨ b1 + cfg.BlockSize ≤ b)
    (fuel : Nat) (hfuel : ls.length + ld.length ≤ fuel) :
    (destructor cfg fuel (moveConstruct (objs rhs)).2 h = some h ∧
      destructor cfg fuel (moveConstruct (objs rhs)).1 h
        = some { h with deleted := h.deleted ++ ls }) ∧
    (destructor cfg fuel (moveAssign objs this_ rhs rhs) h
        = some { h with deleted := h.deleted ++ ld } ∧
      destructor cfg fuel (moveAssign objs this_ rhs this_)
          { h with deleted := h.deleted ++ ld }
        = some { h with deleted := h.deleted ++ ld ++ ls }) ∧
    (ld ++ ls).Nodup ∧
    ∀ fl, FreeChain cfg h.mem (objs rhs).m_free_slots fl →
      (∀ x, (x ∈ fl ∨ (x = (objs rhs).m_current_slot ∧
          (objs rhs).m_current_slot < (objs rhs).m_last_slot)) →
        ∃ b ∈ ls, b ≤ x ∧ x < b + cfg.BlockSize) →
      FreeChain cfg h.mem (moveAssign objs this_ rhs this_).m_free_slots fl ∧
      ∀ x, (x ∈ fl ∨ (x = (moveAssign objs this_ rhs this_).m_current_slot ∧
          (moveAssign objs this_ rhs this_).m_current_slot
            < (moveAssign objs this_ rhs this_).m_last_slot)) →
        ∀ b1 ∈ ld, ¬ (b1 ≤ x ∧ x < b1 + cfg.BlockSize) := by
  obtain ⟨_, _, hA1, hA2, _⟩ := move_transfers_members_aux objs this_ rhs hne
  refine ⟨⟨?_, ?_⟩, ⟨?_, ?_⟩, ?_, ?_⟩
  · exact (destructor_of_chain cfg (moveConstruct (objs rhs)).2 h [] fuel rfl
      (Nat.zero_le _)).trans (by simp)
  · exact destructor_of_chain cfg (moveConstruct (objs rhs)).1 h ls fuel hs (by omega)
  · rw [hA2]
    exact destructor_of_chain cfg _ h ld fuel hd (by omega)
  · rw [hA1]
    exact destructor_of_chain cfg (objs rhs) { h with deleted := h.deleted ++ ld } ls fuel
      hs (by omega)
  · refine List.Nodup.append (freeChain_nodup cfg _ _ _ hd) (freeChain_nodup cfg _ _ _ hs) ?_
    intro b hb1 hb
    rcases hdisj b hb b hb1 with h1 | h1 <;> omega
  · intro fl hfl hown
    rw [hA1]
    refine ⟨hfl, ?_⟩
    intro x hx b1 hb1 hin
    obtain ⟨b, hb, hx1, hx2⟩ := hown x hx
    rcases hdisj b hb b1 hb1 with h1 | h1 <;> omega

/-- C11 (amended), for the destination `0` and the source `1` of `twoPools`: after the
move assignment the source's destructor releases the block 12288 and the destination's
destructor then releases 8192 and 4096; the source's free list, the slot 4104, and its
cursor 8208 lie in its own blocks, so the last clause applies. -/
theorem move_then_destroy_witness :
    ((0 : Nat) ≠ 1 ∧ 0 < cfg64.BlockSize ∧
      BlockChain cfg64 twoPoolHeap.mem (twoPools 1).m_current_block [8192, 4096] ∧
      BlockChain cfg64 twoPoolHeap.mem (twoPools 0).m_current_block [12288] ∧
      FreeChain cfg64 twoPoolHeap.mem (twoPools 1).m_free_slots [4104]) ∧
    (destructor cfg64 3 (moveConstruct (twoPools 1)).2 twoPoolHeap = some twoPoolHeap ∧
      destructor cfg64 3 (moveConstruct (twoPools 1)).1 twoPoolHeap
        = some { twoPoolHeap with deleted := twoPoolHeap.deleted ++ [8192, 4096] }) ∧
    (destructor cfg64 3 (moveAssign twoPools 0 1 1) twoPoolHeap
        = some { twoPoolHeap with deleted := twoPoolHeap.deleted ++ [12288] } ∧
      destructor cfg64 3 (moveAssign twoPools 0 1 0)
          { twoPoolHeap with deleted := twoPoolHeap.deleted ++ [12288] }
        = some { twoPoolHeap with
                 deleted := twoPoolHeap.deleted ++ [12288] ++ [8192, 4096] }) ∧
    ([12288] ++ [8192, 4096]).Nodup ∧
    FreeChain cfg64 twoPoolHeap.mem (moveAssign twoPools 0 1 0).m_free_slots [4104] ∧
    ∀ x, (x ∈ [4104] ∨ (x = (moveAssign twoPools 0 1 0).m_current_slot ∧
        (moveAssign twoPools 0 1 0).m_current_slot
          < (moveAssign twoPools 0 1 0).m_last_slot)) →
      ∀ b1 ∈ [12288], ¬ (b1 ≤ x ∧ x < b1 + cfg64.BlockSize) :=
  have hs : BlockChain cfg64 twoPoolHeap.mem (twoPools 1).m_current_block [8192, 4096] :=
    (freeChain_cons cfg64 _ _ _ _).mpr ⟨rfl, by decide,
      (freeChain_cons cfg64 _ _ _ _).mpr ⟨by decide, by decide,
        (freeChain_nil cfg64 _ _).mpr (by decide)⟩⟩
  have hd : BlockChain cfg64 twoPoolHeap.mem (twoPools 0).m_current_block [12288] :=
    (freeChain_cons cfg64 _ _ _ _).mpr ⟨rfl, by decide,
      (freeChain_nil cfg64 _ _).mpr (by decide)⟩
  have hfl : FreeChain cfg64 twoPoolHeap.mem (twoPools 1).m_free_slots [4104] :=
    (freeChain_cons cfg64 _ _ _ _).mpr ⟨rfl, by decide,
      (freeChain_nil cfg64 _ _).mpr (by decide)⟩
  have hown : ∀ x, (x ∈ [4104] ∨ (x = (twoPools 1).m_current_slot ∧
        (twoPools 1).m_current_slot < (twoPools 1).m_last_slot)) →
      ∃ b ∈ [8192, 4096], b ≤ x ∧ x < b + cfg64.BlockSize := by
    intro x hx
    rcases hx with hx | ⟨hx, _⟩
    · rw [List.mem_singleton] at hx
      subst hx
      exact ⟨4096, by decide, by decide, by decide⟩
    · subst hx
      exact ⟨8192, by decide, by decide, by decide⟩
  have t := move_then_destroy cfg64 (by decide) twoPoolHeap twoPools 0 1 (by decide)
    [8192, 4096] [12288] hs hd (by decide) 3 (by decide)
  ⟨⟨by decide, by decide, hs, hd, hfl⟩, t.1, t.2.1, t.2.2.1, t.2.2.2 [4104] hfl hown⟩

/-! ## Copying a pool -/

/-- Addresses handed out by somebody else can be added to the live list of a run
without changing what the run does. -/
theorem step_append_live (cfg : Config) (sys : Nat → Option Nat) (extra : List Nat)
    (r0 r1 : Run) (op : Op) (hs : step cfg sys r0 op = RunResult.done r1) :
    step cfg sys { r0 with live := r0.live ++ extra } op
      = RunResult.done { r1 with live := r1.live ++ extra } := by
  cases op with
  | alloc =>
    rcases hal : alloc cfg sys r0.pool r0.heap with ⟨o, p, h⟩
    cases o with
    | ret a =>
      simp only [step, hal, RunResult.done.injEq] at hs ⊢
      subst hs
      rfl
    | badAlloc =>
      simp only [step, hal, RunResult.done.injEq] at hs ⊢
      subst hs
      rfl
    | noReturn => simp [step, hal] at hs
  | dealloc p =>
    by_cases hp : p ∈ r0.live
    · simp only [step, if_pos hp, RunResult.done.injEq] at hs
      subst hs
      simp only [step, if_pos (List.mem_append_left extra hp), List.erase_append_left _ hp]
    · simp [step, hp] at hs

theorem exec_append_live (cfg : Config) (sys : Nat → Option Nat) (extra : List Nat)
    (ops : List Op) : ∀ (r0 r : Run), exec cfg sys r0 ops = RunResult.done r →
      exec cfg sys { r0 with live := r0.live ++ extra } ops
        = RunResult.done { r with live := r.live ++ extra } := by
  induction ops with
  | nil =>
    intro r0 r hrun
    simp only [exec, RunResult.done.injEq] at hrun ⊢
    rw [hrun]
  | cons op ops ih =>
    intro r0 r hrun
    cases hs : step cfg sys r0 op with
    | contractBroken => simp [exec, hs] at hrun
    | undefined => simp [exec, hs] at hrun
    | done r1 =>
      simp only [exec, hs] at hrun
      simp only [exec, step_append_live cfg sys extra r0 r1 op hs]
      exact ih r1 r hrun

/-- When the source is in a state reached from the empty pool by a run with defined
behaviour and a copy is then used on the same heap, again with defined behaviour and a
system allocator that returns fresh blocks, an address returned by `alloc` on the copy
is none of the source's live addresses and none of the addresses on the source's free
list (and is not live in the copy either). -/
theorem copy_independent_on_defined_runs (cfg : Config) (hcfg : cfg.WF)
    (sys : Nat → Option Nat) (hsys : SysOK cfg sys) (mem : Memory) (ops1 : List Op)
    (r1 : Run) (hrun1 : exec cfg sys (Run.init mem) ops1 = RunResult.done r1) (ops2 : List Op)
    (r2 : Run)
    (hrun2 : exec cfg sys
      { pool := copyConstruct r1.pool, heap := r1.heap, live := [] } ops2 = RunResult.done r2) :
    (∀ src, copyConstruct src = MemoryPool.empty) ∧
    ∀ a, (alloc cfg sys r2.pool r2.heap).1 = Outcome.ret a →
      a ∉ r1.live ∧
      (∀ free1, FreeChain cfg r1.heap.mem r1.pool.m_free_slots free1 → a ∉ free1) ∧
      a ∉ r2.live := by
  refine ⟨fun _ => rfl, ?_⟩
  intro a ha
  obtain ⟨free1, hinv1⟩ := inv_exec cfg hcfg sys hsys ops1 _ r1 ⟨[], inv_init cfg sys mem⟩ hrun1
  have hstart : Inv cfg sys
      { pool := copyConstruct r1.pool, heap := r1.heap, live := [] ++ (free1 ++ r1.live) }
      [] :=
    { chain := rfl
      nodup := hinv1.nodup
      issued := hinv1.issued
      cursor := Or.inl ⟨rfl, rfl⟩ }
  have hrun := exec_append_live cfg sys (free1 ++ r1.live) ops2 _ r2 hrun2
  obtain ⟨free2, hinv2⟩ := inv_exec cfg hcfg sys hsys ops2 _ _ ⟨[], hstart⟩ hrun
  have hnot := (inv_alloc_ret_not_live cfg hcfg sys hsys _ free2 hinv2 a ha).1
  have hnot1 : a ∉ r2.live ++ (free1 ++ r1.live) := hnot
  simp only [List.mem_append, not_or] at hnot1
  refine ⟨hnot1.2.2, ?_, hnot1.1⟩
  intro free hfree
  rw [freeChain_unique cfg _ free free1 _ hfree hinv1.chain]
  exact hnot1.2.1

/-! ## An instance of the lemmas on runs with defined behaviour -/

/-- The lemmas on runs with defined behaviour apply to the run `alloc`, `alloc`,
`dealloc(24)` on the one-slot-per-block instance, which ends in `tinyRun`. -/
theorem defined_run_example :
    exec cfgTiny sysBump16 (Run.init zeroMem) [Op.alloc, Op.alloc, Op.dealloc 24]
      = RunResult.done tinyRun ∧
    (∀ a, (alloc cfgTiny sysBump16 tinyRun.pool tinyRun.heap).1 = Outcome.ret a →
      a ∉ tinyRun.live) ∧
    (∀ a ∈ tinyRun.live, cfgTiny.slotAlign ∣ a ∧ 4 ∣ a) ∧
    destructor cfgTiny 2 tinyRun.pool tinyRun.heap
      = some { tinyRun.heap with deleted := (acquired sysBump16 tinyRun.heap.news).reverse } :=
  ⟨rfl,
    (no_alias_on_defined_runs cfgTiny cfgTiny_wf sysBump16 sysBump16_ok zeroMem
      [Op.alloc, Op.alloc, Op.dealloc 24] tinyRun rfl).1,
    (aligned_on_defined_runs cfgTiny cfgTiny_wf 3 rfl (by decide) 4 ⟨2, rfl⟩ sysBump16
      sysBump16_ok zeroMem [Op.alloc, Op.alloc, Op.dealloc 24] tinyRun rfl).2,
    (destructor_on_defined_runs cfgTiny cfgTiny_wf sysBump16 sysBump16_ok
      sysBump16_holds_first_slot zeroMem [Op.alloc, Op.alloc, Op.dealloc 24] tinyRun rfl 2
      (by decide)).1⟩

/-! ## Runs that reach the path without `return` -/

/-- C5 (the code diverges from the claim): on the default instance the first `alloc`
returns 4104, which is then live.  The second `alloc` finds the free list empty and
the cursor 4112 below the bound 8185 and reaches the end of the function without a
`return`: it returns no address at all, and the run of two calls has undefined
behaviour, so the code does not make the address the caller receives differ from the
live address. -/
theorem second_alloc_undefined_while_live :
    exec cfg64 sysBump (Run.init zeroMem) [Op.alloc] = RunResult.done afterFirstAlloc ∧
    afterFirstAlloc.live = [4104] ∧
    (∀ a, (alloc cfg64 sysBump afterFirstAlloc.pool afterFirstAlloc.heap).1
      ≠ Outcome.ret a) ∧
    exec cfg64 sysBump (Run.init zeroMem) [Op.alloc, Op.alloc] = RunResult.undefined := by
  refine ⟨rfl, rfl, ?_, rfl⟩
  intro a h
  have h1 : (alloc cfg64 sysBump afterFirstAlloc.pool afterFirstAlloc.heap).1
      = Outcome.noReturn := rfl
  rw [h1] at h
  cases h

/-- C7 (the code diverges from the claim): for a 16-byte-aligned slot the first `alloc`
returns the aligned address 4112.  The second `alloc` (free list empty, cursor 4128
below the bound 8177) reaches the end of the function without a `return`: the slot
4128 is not returned, no `return` statement yields a multiple of the alignment, and the
run has undefined behaviour. -/
theorem second_alloc_yields_no_aligned_address :
    (alloc cfgAlign16 sysBump MemoryPool.empty (zeroHeap 0)).1 = Outcome.ret 4112 ∧
    cfgAlign16.slotAlign ∣ 4112 ∧
    (alloc cfgAlign16 sysBump MemoryPool.empty (zeroHeap 0)).2.1 = ⟨4096, 4128, 8177, 0⟩ ∧
    (alloc cfgAlign16 sysBump ⟨4096, 4128, 8177, 0⟩ (zeroHeap 1)).1 = Outcome.noReturn ∧
    exec cfgAlign16 sysBump (Run.init zeroMem) [Op.alloc, Op.alloc]
      = RunResult.undefined :=
  ⟨by decide, ⟨257, rfl⟩, by decide, by decide, rfl⟩

/-- C18 (the code diverges from the claim): with the free list empty and the cursor
below the bound, on the first unused slot as on the last one, `alloc` reaches the end
of the function without a `return`.  The call has undefined behaviour, so the source
does not determine that the pool owns the same blocks after it as before. -/
theorem alloc_below_bound_undefined :
    (alloc cfg64 sysBump ⟨4096, 4112, 8185, 0⟩ (zeroHeap 1)).1 = Outcome.noReturn ∧
    (alloc cfg64 sysBump ⟨4096, 8184, 8185, 0⟩ (zeroHeap 1)).1 = Outcome.noReturn ∧
    step cfg64 sysBump { pool := ⟨4096, 4112, 8185, 0⟩, heap := zeroHeap 1, live := [] }
      Op.alloc = RunResult.undefined ∧
    step cfg64 sysBump { pool := ⟨4096, 8184, 8185, 0⟩, heap := zeroHeap 1, live := [] }
      Op.alloc = RunResult.undefined :=
  ⟨by decide, by decide, rfl, rfl⟩

end my_code
